import Mathlib

/-!
Verification development for the pyneural feedforward neural-network wrapper
(`src/pyneural.pyx`).

The Python/Cython wrapper is embedded shallowly:

* numpy arrays are modelled as `NDArray` values (an explicit shape together
  with the row-major flat list of element values); element values are
  modelled as rationals (the source stores IEEE float32 values; claims here
  are structural, so exact arithmetic stands in for float arithmetic, and
  `astype(np.float32)` on data already in the value domain is the identity);
* the Python heap of numpy array objects is modelled as an explicit `Store`
  (a list of arrays indexed by references), so that aliasing and in-place
  mutation are expressible;
* the `NetLayer` doubly linked chain (`prev`/`next`) is modelled as an
  ordered list of layers in head-to-tail order, as the traversals in the
  source only ever walk the chain front to back;
* the C routines `neural_train_iteration` and `neural_predict_prob` are
  declared in `neural.h` but their implementation is not part of this
  repository checkout; they are modelled from the spec (sections 4.2-4.5)
  and marked as such;
* fallible Python code (assert statements) returns an explicit error value;
  operations that can mutate state before failing return the state reached
  at the point of failure.
-/


/-- Error taxonomy of the spec (section 7): `shapeMismatch` for dimension
disagreements, `invalidConfiguration` for bad layer/batch configuration,
`indexError` for Python IndexError-style failures. The source raises plain
`AssertionError`s; each assert is mapped to its taxonomy category. -/
inductive PyError where
  | shapeMismatch
  | invalidConfiguration
  | indexError
deriving DecidableEq, Repr

/-- A numpy ndarray value: its shape and its elements in C (row-major)
order. `np.size` is the product of the shape. -/
structure NDArray where
  shape : List ℕ
  data : List ℚ
deriving DecidableEq, Repr

/-- `np.size(a)`: the total number of elements. -/
def NDArray.size (a : NDArray) : ℕ := a.shape.prod

/-- The heap of numpy array objects: a reference is an index into the store. -/
abbrev Store := List NDArray

/-- Read the array at reference `r` (missing references read as an empty
array; all references produced by the operations below are valid). -/
def readA (s : Store) (r : ℕ) : NDArray := s.getD r ⟨[], []⟩

/-- Overwrite the array object at reference `r` in place. -/
def writeA (s : Store) (r : ℕ) (a : NDArray) : Store := s.set r a

/-- Allocate a fresh array object, returning the new store and the fresh
reference. -/
def allocA (s : Store) (a : NDArray) : Store × ℕ := (s ++ [a], s.length)

def storeLen (s : Store) : ℕ := List.length s

/-- One layer of the chain, mirroring `NetLayer` in the source: references
to its four buffers plus its dimensions. The `prev`/`next` back-references
of the source are replaced by the position of the layer in the network's
chain list. -/
structure NetLayer where
  bias : ℕ
  theta : ℕ
  act : ℕ
  delta : ℕ
  in_nodes : ℕ
  out_nodes : ℕ
deriving DecidableEq, Repr

/-- Default layer value used for out-of-range list reads. -/
def nlD : NetLayer := ⟨0, 0, 0, 0, 0, 0⟩

/-- `NetLayer.__init__(in_nodes, out_nodes)`: allocates the bias vector and
the flat theta vector with entries `0.24 * rand() - 0.12`; the random draws
are supplied by the oracles `rb` and `rt`. The `act`/`delta` buffers are not
allocated here (the source allocates them in `set_batch`, which
`NeuralNet.__init__` always calls before any use); they are initialized to
reference 0 and overwritten by `set_batch`. -/
def NetLayer.init (s : Store) (inN outN : ℕ) (rb rt : ℕ → ℚ) : Store × NetLayer :=
  let (s1, b) := allocA s ⟨[outN], (List.range outN).map (fun i => 6/25 * rb i - 3/25)⟩
  let (s2, t) := allocA s1 ⟨[outN * inN], (List.range (outN * inN)).map (fun i => 6/25 * rt i - 3/25)⟩
  (s2, ⟨b, t, 0, 0, inN, outN⟩)

/-- `NetLayer.set_batch(batch_size)`: reallocates the `act` and `delta`
buffers as zero-filled arrays of `in_nodes * batch_size` elements. -/
def NetLayer.set_batch (s : Store) (ly : NetLayer) (batch : ℕ) : Store × NetLayer :=
  let (s1, a) := allocA s ⟨[ly.in_nodes * batch], List.replicate (ly.in_nodes * batch) 0⟩
  let (s2, d) := allocA s1 ⟨[ly.in_nodes * batch], List.replicate (ly.in_nodes * batch) 0⟩
  (s2, { ly with act := a, delta := d })

/-- `NetLayer.get_params()`: returns `(self.bias, self.theta)` — the
internal array objects themselves, with no copy made. -/
def NetLayer.get_params (ly : NetLayer) : ℕ × ℕ := (ly.bias, ly.theta)

/-- `NetLayer.set_params(bias, theta)`: asserts `np.size(bias) == out_nodes`
and `np.size(theta) == out_nodes * in_nodes`, then stores copies
(`copy(order='C').astype(np.float32)`, which preserves shape and, in this
value domain, data) as fresh array objects. On assert failure the state
reached so far (unchanged) is returned together with the error. -/
def NetLayer.set_params (s : Store) (ly : NetLayer) (b t : ℕ) :
    Store × NetLayer × Option PyError :=
  if (readA s b).size ≠ ly.out_nodes then (s, ly, some .shapeMismatch)
  else if (readA s t).size ≠ ly.out_nodes * ly.in_nodes then (s, ly, some .shapeMismatch)
  else
    let (s1, b2) := allocA s ⟨(readA s b).shape, (readA s b).data⟩
    let (s2, t2) := allocA s1 ⟨(readA s t).shape, (readA s t).data⟩
    (s2, { ly with bias := b2, theta := t2 }, none)

/-! ### Dense matrix helpers (row-major flat data, as the C core sees it) -/

/-- Row `i` of a 2-dimensional array: `shape[1]` consecutive entries of the
row-major data. -/
def getRow (a : NDArray) (i : ℕ) : List ℚ :=
  (List.range (a.shape.getD 1 0)).map (fun j => a.data.getD (i * a.shape.getD 1 0 + j) 0)

/-- The first `n` rows of a 2-dimensional array as a list of rows. -/
def matRowsN (a : NDArray) (n : ℕ) : List (List ℚ) :=
  (List.range n).map (fun i => getRow a i)

/-- Flatten a list of rows back into row-major data. -/
def matFlatten (m : List (List ℚ)) : List ℚ := m.flatten

/-- Elementwise matrix subtraction (entry by entry over each row). -/
def matSub (A B : List (List ℚ)) : List (List ℚ) :=
  (A.zip B).map (fun p => (List.range p.1.length).map (fun j => p.1.getD j 0 - p.2.getD j 0))

/-- One affine-plus-activation transform of the forward pass: the layer's
dimensions and its current bias/theta parameter values (theta row-major of
shape `(outN, inN)` flattened). -/
structure Transf where
  inN : ℕ
  outN : ℕ
  bias : List ℚ
  theta : List ℚ
deriving DecidableEq, Repr

/-- Apply one layer transform to a batch of rows:
`next.act = act_fn(act · theta^T + bias)` (spec section 4.2). -/
def applyTf (af : ℚ → ℚ) (t : Transf) (A : List (List ℚ)) : List (List ℚ) :=
  A.map (fun row =>
    (List.range t.outN).map (fun o =>
      af (t.bias.getD o 0 +
        ((List.range t.inN).map (fun i => row.getD i 0 * t.theta.getD (o * t.inN + i) 0)).sum)))

/-- The full forward pass: apply every transform from head to
tail-predecessor (spec section 4.2). -/
def forwardAll (af : ℚ → ℚ) (tfs : List Transf) (X : List (List ℚ)) : List (List ℚ) :=
  tfs.foldl (fun A t => applyTf af t A) X

/-- Column sum of a delta matrix (used for the bias update). -/
def colsum (D : List (List ℚ)) (o : ℕ) : ℚ := (D.map (fun row => row.getD o 0)).sum

/-- Gradient entry `(o, i)`: `(next.delta^T · layer.act)[o][i]`. -/
def gradEntry (D A : List (List ℚ)) (o i : ℕ) : ℚ :=
  ((D.zip A).map (fun p => p.1.getD o 0 * p.2.getD i 0)).sum

/-- Bias update: `bias - (alpha/batch_size) * column_sum(next.delta)`
(spec section 4.3 step 4; no regularization on bias). -/
def updBias (alpha bszQ : ℚ) (t : Transf) (D : List (List ℚ)) : List ℚ :=
  (List.range t.outN).map (fun o => t.bias.getD o 0 - alpha / bszQ * colsum D o)

/-- Theta update:
`theta - (alpha/batch_size) * (next.delta^T · layer.act) - alpha*lamb*theta`
on the row-major flat representation (spec section 4.3 step 4). -/
def updTheta (alpha lamb bszQ : ℚ) (t : Transf) (D A : List (List ℚ)) : List ℚ :=
  (List.range (t.outN * t.inN)).map (fun j =>
    t.theta.getD j 0 - alpha / bszQ * gradEntry D A (j / t.inN) (j % t.inN)
      - alpha * lamb * t.theta.getD j 0)

/-- Backpropagated delta at the layer's input:
`(next.delta · theta) ⊙ act ⊙ (1 - act)` (spec section 4.3 step 3). -/
def deltaBack (t : Transf) (D A : List (List ℚ)) : List (List ℚ) :=
  (D.zip A).map (fun p =>
    (List.range t.inN).map (fun i =>
      ((List.range t.outN).map (fun o => p.1.getD o 0 * t.theta.getD (o * t.inN + i) 0)).sum
        * p.2.getD i 0 * (1 - p.2.getD i 0)))

/-- Per-layer result of one mini-batch backward pass: the updated bias and
theta data and the activation/delta matrices written into the layer's
buffers. -/
structure LayerRec where
  bias : List ℚ
  theta : List ℚ
  act : List (List ℚ)
  delta : List (List ℚ)
deriving DecidableEq, Repr

/-- Modelled from the spec: the backward pass and update engine of the
missing C core (`neural_train_iteration`, spec sections 4.2-4.3), for one
mini-batch, as a pure recursion over the remaining transforms. Given the
activation `A` flowing into the first remaining layer, it returns the delta
at that level, the final output activation, and the per-layer records in
chain order (the record of a layer holds its updated parameters, computed
from the downstream layer's delta and the layer's own input activation). -/
def bp (af : ℚ → ℚ) (alpha lamb bszQ : ℚ) (Y : List (List ℚ)) :
    List Transf → List (List ℚ) → List (List ℚ) × List (List ℚ) × List LayerRec
  | [], A => (matSub A Y, A, [])
  | t :: ts, A =>
      let A2 := applyTf af t A
      let r := bp af alpha lamb bszQ Y ts A2
      let dN := r.1
      (deltaBack t dN A, r.2.1,
        ⟨updBias alpha bszQ t dN, updTheta alpha lamb bszQ t dN A, A, deltaBack t dN A⟩ :: r.2.2)

/-- The current transforms of the chain, read from the store: all layers
except the tail (the C forward loop runs `while curr != tail`). -/
def chainTransforms (s : Store) (chain : List NetLayer) : List Transf :=
  chain.dropLast.map (fun ly => ⟨ly.in_nodes, ly.out_nodes, (readA s ly.bias).data, (readA s ly.theta).data⟩)

/-- Write one layer's record back through the layer's buffer references
(in-place data writes through the C pointers; the numpy shapes of the
buffer objects are unchanged). -/
def write4 (s : Store) (ly : NetLayer) (r : LayerRec) : Store :=
  let s1 := writeA s ly.bias ⟨(readA s ly.bias).shape, r.bias⟩
  let s2 := writeA s1 ly.theta ⟨(readA s1 ly.theta).shape, r.theta⟩
  let s3 := writeA s2 ly.act ⟨(readA s2 ly.act).shape, matFlatten r.act⟩
  writeA s3 ly.delta ⟨(readA s3 ly.delta).shape, matFlatten r.delta⟩

/-- Write all per-layer records back, in chain order. -/
def writeRecords : Store → List NetLayer → List LayerRec → Store
  | s, [], _ => s
  | s, _ :: _, [] => s
  | s, ly :: ch, r :: rs => writeRecords (write4 s ly r) ch rs

/-- Modelled from the spec: one mini-batch of `neural_train_iteration`
(missing C core): slice batch `b` out of the shuffled features/labels, run
the forward and backward passes, and write the updated parameters and the
activation/delta buffers back through the chain's references. The tail
layer's parameters are not updated (it has no outgoing weights); its
buffers receive the output activation and the output error
`act_tail - labels` (spec section 4.3 step 2). -/
def batchUpdate (af : ℚ → ℚ) (chain : List NetLayer) (fRef lRef : ℕ) (bsz : ℕ)
    (alpha lamb : ℚ) (s : Store) (b : ℕ) : Store :=
  let X := (List.range bsz).map (fun r => getRow (readA s fRef) (b * bsz + r))
  let Y := (List.range bsz).map (fun r => getRow (readA s lRef) (b * bsz + r))
  let res := bp af alpha lamb (bsz : ℚ) Y (chainTransforms s chain) X
  let tailLy := chain.getLastD nlD
  let recs := res.2.2 ++
    [⟨(readA s tailLy.bias).data, (readA s tailLy.theta).data, res.2.1, matSub res.2.1 Y⟩]
  writeRecords s chain recs

/-- Modelled from the spec: `neural_train_iteration` (missing C core, spec
section 4.4): one full epoch over the pre-shuffled dataset, processing the
`n_samples / batch_size` contiguous mini-batches in order (the source
assumes the batch size divides the dataset evenly; any remainder rows are
not processed). -/
def neural_train_iteration (af : ℚ → ℚ) (chain : List NetLayer) (fRef lRef : ℕ)
    (n bsz : ℕ) (alpha lamb : ℚ) (s : Store) : Store :=
  (List.range (n / bsz)).foldl (batchUpdate af chain fRef lRef bsz alpha lamb) s

/-- Write the forward-pass activations into the layers' `act` buffers, in
chain order (in-place data writes; numpy shapes of the buffers unchanged). -/
def writeActs : Store → List NetLayer → List (List (List ℚ)) → Store
  | s, [], _ => s
  | s, _ :: _, [] => s
  | s, ly :: ch, A :: As =>
      writeActs (writeA s ly.act ⟨(readA s ly.act).shape, matFlatten A⟩) ch As

/-- Modelled from the spec: `neural_predict_prob` (missing C core, spec
sections 4.2 and 4.5): run the forward pass over the `n` input rows,
writing each layer's incoming activation into its `act` buffer and the
final activation matrix into the `preds` output buffer. The configured
batch size is used purely as an allocation unit (spec section 4.5), so the
computed values do not depend on it. -/
def neural_predict_prob (af : ℚ → ℚ) (chain : List NetLayer) (fRef pRef : ℕ)
    (n _bsz : ℕ) (s : Store) : Store :=
  let tfs := chainTransforms s chain
  let X := matRowsN (readA s fRef) n
  let sacts := writeActs s chain
    ((List.range chain.length).map (fun k => forwardAll af (tfs.take k) X))
  writeA sacts pRef ⟨(readA sacts pRef).shape, matFlatten (forwardAll af tfs X)⟩

/-! ### The NeuralNet wrapper -/

/-- `NeuralNet`, mirroring the source: the layer-size list, the cached
feature/label counts, the current batch size, and the layer chain in
head-to-tail order (replacing the `head`/`tail` references and the
`prev`/`next` links). -/
structure NeuralNet where
  layers : List ℕ
  n_features : ℕ
  n_labels : ℕ
  batch_size : ℕ
  chain : List NetLayer
deriving DecidableEq, Repr

/-- The `(in_nodes, out_nodes)` pair of each `NetLayer` constructed by
`random_init`: `NetLayer(layers[0], layers[1])`, then
`NetLayer(layers[k], layers[k+1])` for `k = 1 .. len-2`, then the sink tail
`NetLayer(layers[-1], 0)`. -/
def layerSpecs (sizes : List ℕ) : List (ℕ × ℕ) :=
  (List.range (sizes.length - 1)).map (fun k => (sizes.getD k 0, sizes.getD (k + 1) 0))
    ++ [(sizes.getD (sizes.length - 1) 0, 0)]

/-- Allocate the chain's layers in order; `rnd k` supplies the two random
oracles of the `k`-th constructed layer. -/
def allocLayers (rnd : ℕ → (ℕ → ℚ) × (ℕ → ℚ)) : Store → ℕ → List (ℕ × ℕ) → Store × List NetLayer
  | s, _, [] => (s, [])
  | s, idx, (iN, oN) :: rest =>
      let p := NetLayer.init s iN oN (rnd idx).1 (rnd idx).2
      let q := allocLayers rnd p.1 (idx + 1) rest
      (q.1, p.2 :: q.2)

/-- `NeuralNet.set_batch(batch_size)`: walk the chain reallocating every
layer's `act`/`delta` buffers. -/
def setBatchGo : Store → List NetLayer → ℕ → Store × List NetLayer
  | s, [], _ => (s, [])
  | s, ly :: ch, b =>
      let p := NetLayer.set_batch s ly b
      let q := setBatchGo p.1 ch b
      (q.1, p.2 :: q.2)

def NeuralNet.set_batch (s : Store) (net : NeuralNet) (b : ℕ) : Store × NeuralNet :=
  let p := setBatchGo s net.chain b
  (p.1, { net with batch_size := b, chain := p.2 })

/-- `NeuralNet.__init__(layers)`: asserts `len(layers) >= 2` (spec taxonomy:
InvalidConfiguration), records the sizes and the feature/label counts,
builds the chain with `random_init`, and allocates batch buffers with
`set_batch(100)`. -/
def NeuralNet.init (s : Store) (sizes : List ℕ) (rnd : ℕ → (ℕ → ℚ) × (ℕ → ℚ)) :
    Except PyError (Store × NeuralNet) :=
  if 2 ≤ sizes.length then
    let p := allocLayers rnd s 0 (layerSpecs sizes)
    NeuralNet.set_batch p.1
      ⟨sizes, sizes.getD 0 0, sizes.getD (sizes.length - 1) 0, 0, p.2⟩ 100 |> .ok
  else .error .invalidConfiguration

/-- `NeuralNet.get_params()`: the chain walk collecting each layer's
`(bias, theta)` pair — the internal array objects, in head-to-tail order. -/
def NeuralNet.get_params (net : NeuralNet) : List (ℕ × ℕ) :=
  net.chain.map NetLayer.get_params

/-- The values currently held by the network's parameter arrays. -/
def paramsData (s : Store) (net : NeuralNet) : List (NDArray × NDArray) :=
  net.get_params.map (fun pr => (readA s pr.1, readA s pr.2))

/-- The chain walk of `NeuralNet.set_params`: set each layer's parameters
from the corresponding pair, stopping (with the state reached so far) at the
first failing layer. Running out of pairs while layers remain raises a
Python IndexError on `params[i]`. -/
def setParamsGo : Store → List NetLayer → List (ℕ × ℕ) → Store × List NetLayer × Option PyError
  | s, [], _ => (s, [], none)
  | s, ly :: ch, [] => (s, ly :: ch, some .indexError)
  | s, ly :: ch, pr :: prs =>
      match NetLayer.set_params s ly pr.1 pr.2 with
      | (s1, ly1, none) =>
          let q := setParamsGo s1 ch prs
          (q.1, ly1 :: q.2.1, q.2.2)
      | (s1, ly1, some e) => (s1, ly1 :: ch, some e)

/-- `NeuralNet.set_params(params)`: asserts `len(params) == len(self.layers)`
then walks the chain setting each layer's parameters. -/
def NeuralNet.set_params (s : Store) (net : NeuralNet) (prs : List (ℕ × ℕ)) :
    Store × NeuralNet × Option PyError :=
  if prs.length ≠ net.layers.length then (s, net, some .shapeMismatch)
  else
    let q := setParamsGo s net.chain prs
    (q.1, { net with chain := q.2.1 }, q.2.2)

/-- `NeuralNet.predict_prob(features)`: asserts
`features.shape[1] == self.n_features`, copies the input
(`copy(order='C').astype(np.float32)`), allocates the zero-filled
`(n, n_labels)` output array, and calls the C forward engine on the copy.
Returns the reference to the output array. The assert precedes every
allocation and write. -/
def NeuralNet.predict_prob (af : ℚ → ℚ) (s : Store) (net : NeuralNet) (fRef : ℕ) :
    Except PyError (Store × ℕ) :=
  let f := readA s fRef
  if f.shape.getD 1 0 = net.n_features then
    let p1 := allocA s ⟨f.shape, f.data⟩
    let p2 := allocA p1.1 ⟨[f.shape.getD 0 0, net.n_labels],
      List.replicate (f.shape.getD 0 0 * net.n_labels) 0⟩
    .ok (neural_predict_prob af net.chain p1.2 p2.2 (f.shape.getD 0 0) net.batch_size p2.1, p2.2)
  else .error .shapeMismatch

/-- The value of the probability matrix returned by `predict_prob`. -/
def predProbData (af : ℚ → ℚ) (s : Store) (net : NeuralNet) (fRef : ℕ) :
    Except PyError NDArray :=
  match NeuralNet.predict_prob af s net fRef with
  | .ok (s2, p) => .ok (readA s2 p)
  | .error e => .error e

/-- Predict on a caller-supplied input value: allocate the input array into
the store and run `predict_prob`, returning the output value. -/
def predictOn (af : ℚ → ℚ) (s : Store) (net : NeuralNet) (fv : NDArray) :
    Except PyError NDArray :=
  predProbData af (s ++ [fv]) net (storeLen s)

/-- `np.argmax` over one row: the index of the first occurrence of the
maximum value (modelled from the numpy documentation of `argmax`). -/
def argmaxRow : List ℚ → ℕ
  | [] => 0
  | [_] => 0
  | x :: y :: t =>
      let r := argmaxRow (y :: t)
      if x < (y :: t).getD r 0 then r + 1 else 0

/-- The rows of a 2-dimensional array. -/
def matRows (a : NDArray) : List (List ℚ) := matRowsN a (a.shape.getD 0 0)

/-- `NeuralNet.predict_label(features)`: `np.argmax(predict_prob(features),
axis=1)` — the per-row argmax of the probability matrix. -/
def NeuralNet.predict_label (af : ℚ → ℚ) (s : Store) (net : NeuralNet) (fRef : ℕ) :
    Except PyError (Store × List ℕ) :=
  match NeuralNet.predict_prob af s net fRef with
  | .ok (s2, p) => .ok (s2, (matRows (readA s2 p)).map argmaxRow)
  | .error e => .error e

/-! ### Training -/

/-- One epoch of `NeuralNet.train`: read the caller's arrays, build the
shuffled C-order float32 copies `_features`/`_labels` (the permutation `idx`
drawn by `np.random.permutation` is supplied as an oracle), and run the C
epoch routine on the copies with `n_samples = features.shape[0]`. -/
def trainEpoch (af : ℚ → ℚ) (chain : List NetLayer) (fRef lRef : ℕ) (bsz : ℕ)
    (alpha lamb : ℚ) (perm : List ℕ) (s : Store) : Store :=
  let f := readA s fRef
  let l := readA s lRef
  let p1 := allocA s ⟨f.shape, matFlatten (perm.map (fun i => getRow f i))⟩
  let p2 := allocA p1.1 ⟨l.shape, matFlatten (perm.map (fun i => getRow l i))⟩
  neural_train_iteration af chain p1.2 p2.2 (f.shape.getD 0 0) bsz alpha lamb p2.1

/-- The epoch loop of `NeuralNet.train`: run `max_iter` epochs, multiplying
`alpha` by `decay` after each completed epoch (``alpha *= decay`` at the end
of the loop body). Besides the final store it returns, as instrumentation,
the list of `alpha` values passed to the successive
`neural_train_iteration` calls. -/
def trainLoop (af : ℚ → ℚ) (chain : List NetLayer) (fRef lRef : ℕ) (bsz : ℕ)
    (lamb decay : ℚ) (permO : ℕ → List ℕ) : ℕ → Store → ℚ → ℕ → Store × List ℚ
  | 0, s, _, _ => (s, [])
  | m + 1, s, a, k =>
      let s1 := trainEpoch af chain fRef lRef bsz a lamb (permO k) s
      let q := trainLoop af chain fRef lRef bsz lamb decay permO m s1 (a * decay) (k + 1)
      (q.1, a :: q.2)

/-- `NeuralNet.train(features, labels, max_iter, batch_size, alpha, lamb,
decay)`: the four asserts (rows agree, feature columns, label columns,
`batch_size > 0`) run before any state is touched; then `set_batch` is run
when the batch size changed, and the epoch loop follows. The result carries
the final store and network, the instrumentation trace of per-epoch alpha
values, and the error raised (if any) together with the state at the point
it was raised. -/
def NeuralNet.train (af : ℚ → ℚ) (s : Store) (net : NeuralNet) (fRef lRef : ℕ)
    (max_iter bsz : ℕ) (alpha lamb decay : ℚ) (permO : ℕ → List ℕ) :
    Store × NeuralNet × List ℚ × Option PyError :=
  let f := readA s fRef
  let l := readA s lRef
  if f.shape.getD 0 0 ≠ l.shape.getD 0 0 then (s, net, [], some .shapeMismatch)
  else if f.shape.getD 1 0 ≠ net.n_features then (s, net, [], some .shapeMismatch)
  else if l.shape.getD 1 0 ≠ net.n_labels then (s, net, [], some .shapeMismatch)
  else if bsz = 0 then (s, net, [], some .invalidConfiguration)
  else
    let p := if bsz ≠ net.batch_size then NeuralNet.set_batch s net bsz else (s, net)
    let q := trainLoop af p.2.chain fRef lRef bsz lamb decay permO max_iter p.1 alpha 0
    (q.1, p.2, q.2, none)

/-! ### Serialization -/

/-- The serialized form produced by `dumps`: the pickled
`{'layers': ..., 'params': ...}` dictionary. Pickle itself is an external
library; it is modelled as a faithful by-value snapshot (numpy arrays are
serialized by value and materialized as fresh objects on load). -/
structure Serialized where
  layers : List ℕ
  params : List (NDArray × NDArray)
deriving DecidableEq, Repr

/-- `NeuralNet.dumps()`: pickle `{'layers': self.layers,
'params': self.get_params()}` — a by-value snapshot of the layer sizes and
the current parameter arrays. -/
def NeuralNet.dumps (s : Store) (net : NeuralNet) : Serialized :=
  ⟨net.layers, paramsData s net⟩

/-- Materialize the unpickled parameter arrays as fresh objects in the
store, in order. -/
def allocList : Store → List (NDArray × NDArray) → Store × List (ℕ × ℕ)
  | s, [] => (s, [])
  | s, pr :: rest =>
      let p1 := allocA s pr.1
      let p2 := allocA p1.1 pr.2
      let q := allocList p2.1 rest
      (q.1, (p1.2, p2.2) :: q.2)

/-- `NeuralNet.loads(string)`: unpickle the description, construct
`NeuralNet(desc['layers'])` (randomly initialized via the oracle `rnd`),
then `net.set_params(desc['params'])`. -/
def NeuralNet.loads (s : Store) (ser : Serialized) (rnd : ℕ → (ℕ → ℚ) × (ℕ → ℚ)) :
    Except PyError (Store × NeuralNet) :=
  let p := allocList s ser.params
  match NeuralNet.init p.1 ser.layers rnd with
  | .error e => .error e
  | .ok sn =>
      match NeuralNet.set_params sn.1 sn.2 p.2 with
      | (s2, net2, none) => .ok (s2, net2)
      | (_, _, some e) => .error e

/-! ### Well-formedness -/

/-- A well-formed network state: the invariants every network constructed by
`NeuralNet.__init__` satisfies and that every wrapper operation preserves —
the chain has one layer per entry of `layers`, dimensions follow the
layer-size list (the tail is the `out_nodes == 0` sink), every parameter
array has the configured number of elements, and all buffer references are
live in the store. -/
def WFNet (s : Store) (net : NeuralNet) : Prop :=
  2 ≤ net.layers.length ∧
  net.chain.length = net.layers.length ∧
  net.n_features = net.layers.getD 0 0 ∧
  net.n_labels = net.layers.getD (net.layers.length - 1) 0 ∧
  ∀ k, k < net.chain.length →
    (net.chain.getD k nlD).in_nodes = net.layers.getD k 0 ∧
    (net.chain.getD k nlD).out_nodes
      = (if k + 1 < net.layers.length then net.layers.getD (k + 1) 0 else 0) ∧
    (readA s (net.chain.getD k nlD).bias).size = (net.chain.getD k nlD).out_nodes ∧
    (readA s (net.chain.getD k nlD).theta).size
      = (net.chain.getD k nlD).out_nodes * (net.chain.getD k nlD).in_nodes ∧
    (net.chain.getD k nlD).bias < storeLen s ∧
    (net.chain.getD k nlD).theta < storeLen s ∧
    (net.chain.getD k nlD).act < storeLen s ∧
    (net.chain.getD k nlD).delta < storeLen s

instance (s : Store) (net : NeuralNet) : Decidable (WFNet s net) := by
  unfold WFNet; infer_instance

/-- `s2` is `s` with some newly allocated objects appended. -/
def Extends (s s2 : Store) : Prop := ∃ ext, s2 = s ++ ext

/-! ### Closed form of the predict output -/

/-- Liveness of a network's buffer references in a store. -/
def LiveRefs (s : Store) (net : NeuralNet) : Prop :=
  ∀ ly ∈ net.chain, ly.bias < storeLen s ∧ ly.theta < storeLen s ∧
    ly.act < storeLen s ∧ ly.delta < storeLen s

instance (s : Store) (net : NeuralNet) : Decidable (LiveRefs s net) := by
  unfold LiveRefs; infer_instance

/-! ### Witness fixtures: a small concrete well-formed network -/

/-- A concrete store holding the buffers of a `[1, 1]` network. -/
def wStore : Store :=
  [⟨[1], [5]⟩, ⟨[1], [3]⟩, ⟨[1], [0]⟩, ⟨[1], [0]⟩,
   ⟨[0], []⟩, ⟨[0], []⟩, ⟨[1], [0]⟩, ⟨[1], [0]⟩]

/-- A concrete `[1, 1]` network over `wStore` with batch size 1. -/
def wNet : NeuralNet :=
  ⟨[1, 1], 1, 1, 1, [⟨0, 1, 2, 3, 1, 1⟩, ⟨4, 5, 6, 7, 1, 0⟩]⟩

/-- A concrete 1-by-1 feature matrix value. -/
def wFeat : NDArray := ⟨[1, 1], [2]⟩

instance {e a : Type} [DecidableEq e] [DecidableEq a] : DecidableEq (Except e a) := fun x y =>
  match x, y with
  | .ok v, .ok w =>
      if h : v = w then .isTrue (by rw [h]) else .isFalse (fun hc => h (by injection hc))
  | .error v, .error w =>
      if h : v = w then .isTrue (by rw [h]) else .isFalse (fun hc => h (by injection hc))
  | .ok _, .error _ => .isFalse (fun hc => Except.noConfusion hc)
  | .error _, .ok _ => .isFalse (fun hc => Except.noConfusion hc)

/-- A concrete layer with `in_nodes = 2`, `out_nodes = 3` over `wLayerStore`. -/
def wLayer : NetLayer := ⟨0, 1, 2, 3, 2, 3⟩

/-- Store for `wLayer`: its bias (3 entries) and theta (6 entries, but laid
out with numpy shape `(2, 3)` — the transpose of `(out_nodes, in_nodes)`),
plus batch buffers. -/
def wLayerStore : Store :=
  [⟨[3], [0, 0, 0]⟩, ⟨[2, 3], [0, 0, 0, 0, 0, 0]⟩, ⟨[2], [0, 0]⟩, ⟨[2], [0, 0]⟩]

/-- Store extending `wStore` with three caller-side 2-D arrays: features
`(3, 1)` at reference 8, labels `(3, 1)` at reference 9, and a `(2, 1)`
array at reference 10. -/
def wStoreT : Store :=
  wStore ++ [⟨[3, 1], [0, 0, 0]⟩, ⟨[3, 1], [0, 0, 0]⟩, ⟨[2, 1], [0, 0]⟩]

/-- `r` is none of the buffer references of any layer in the chain. -/
def AvoidsChain (r : ℕ) (ch : List NetLayer) : Prop :=
  ∀ ly ∈ ch, r ≠ ly.bias ∧ r ≠ ly.theta ∧ r ≠ ly.act ∧ r ≠ ly.delta

instance (r : ℕ) (ch : List NetLayer) : Decidable (AvoidsChain r ch) := by
  unfold AvoidsChain; infer_instance


/-! ## Theorems -/

theorem storeLen_writeA (s : Store) (r : ℕ) (a : NDArray) :
    storeLen (writeA s r a) = storeLen s := by
  simp [storeLen, writeA]

theorem storeLen_allocA (s : Store) (a : NDArray) :
    storeLen (allocA s a).1 = storeLen s + 1 := by
  simp [storeLen, allocA]

theorem readA_writeA_self (s : Store) (r : ℕ) (a : NDArray) (h : r < storeLen s) :
    readA (writeA s r a) r = a := by
  simp [readA, writeA, List.getD, List.getElem?_set_self (by simpa [storeLen] using h)]

theorem readA_writeA_ne (s : Store) (r r2 : ℕ) (a : NDArray) (h : r2 ≠ r) :
    readA (writeA s r a) r2 = readA s r2 := by
  simp [readA, writeA, List.getD, List.getElem?_set_ne (Ne.symm h)]

theorem readA_append_lt (s ext : Store) (r : ℕ) (h : r < storeLen s) :
    readA (s ++ ext) r = readA s r := by
  simp [readA, List.getD, List.getElem?_append_left (by simpa [storeLen] using h)]

theorem readA_append_self (s : Store) (a : NDArray) :
    readA (s ++ [a]) (storeLen s) = a := by
  simp [readA, List.getD, storeLen]

theorem readA_allocA (s : Store) (a : NDArray) (r : ℕ) (h : r < storeLen s) :
    readA (allocA s a).1 r = readA s r := readA_append_lt s [a] r h

theorem readA_allocA_self (s : Store) (a : NDArray) :
    readA (allocA s a).1 (allocA s a).2 = a := readA_append_self s a

/-! ### Store extension -/

theorem NDArray.mk_eta (a : NDArray) : (⟨a.shape, a.data⟩ : NDArray) = a := rfl

theorem extends_refl (s : Store) : Extends s s := ⟨[], by simp⟩

theorem extends_trans {s t u : Store} (h1 : Extends s t) (h2 : Extends t u) :
    Extends s u := by
  obtain ⟨e1, rfl⟩ := h1
  obtain ⟨e2, rfl⟩ := h2
  exact ⟨e1 ++ e2, by simp⟩

theorem extends_allocA (s : Store) (a : NDArray) : Extends s (allocA s a).1 := ⟨[a], rfl⟩

theorem readA_of_extends {s s2 : Store} (h : Extends s s2) (r : ℕ) (hr : r < storeLen s) :
    readA s2 r = readA s r := by
  obtain ⟨ext, rfl⟩ := h
  exact readA_append_lt s ext r hr

theorem storeLen_le_of_extends {s s2 : Store} (h : Extends s s2) :
    storeLen s ≤ storeLen s2 := by
  obtain ⟨ext, rfl⟩ := h
  simp [storeLen]

theorem readA_append2_fst (s : Store) (a b : NDArray) :
    readA (s ++ [a, b]) (storeLen s) = a := by
  have : s ++ [a, b] = (s ++ [a]) ++ [b] := by simp
  rw [this, readA_append_lt _ _ _ (by simp [storeLen]), readA_append_self]

theorem readA_append2_snd (s : Store) (a b : NDArray) :
    readA (s ++ [a, b]) (storeLen s + 1) = b := by
  have h1 : s ++ [a, b] = (s ++ [a]) ++ [b] := by simp
  have h2 : storeLen s + 1 = storeLen (s ++ [a]) := by simp [storeLen]
  rw [h1, h2, readA_append_self]

theorem netlayer_init_extends (s : Store) (inN outN : ℕ) (rb rt : ℕ → ℚ) :
    Extends s (NetLayer.init s inN outN rb rt).1 :=
  extends_trans (extends_allocA s _) (extends_allocA _ _)

theorem netlayer_set_batch_extends (s : Store) (ly : NetLayer) (b : ℕ) :
    Extends s (NetLayer.set_batch s ly b).1 :=
  extends_trans (extends_allocA s _) (extends_allocA _ _)

theorem allocLayers_extends (rnd : ℕ → (ℕ → ℚ) × (ℕ → ℚ)) :
    ∀ (specs : List (ℕ × ℕ)) (s : Store) (idx : ℕ),
      Extends s (allocLayers rnd s idx specs).1
  | [], s, idx => extends_refl s
  | (iN, oN) :: rest, s, idx => by
      simp only [allocLayers]
      exact extends_trans (netlayer_init_extends s iN oN _ _)
        (allocLayers_extends rnd rest _ (idx + 1))

theorem setBatchGo_extends :
    ∀ (ch : List NetLayer) (s : Store) (b : ℕ), Extends s (setBatchGo s ch b).1
  | [], s, b => extends_refl s
  | ly :: ch, s, b => by
      simp only [setBatchGo]
      exact extends_trans (netlayer_set_batch_extends s ly b) (setBatchGo_extends ch _ b)

theorem allocList_extends :
    ∀ (prs : List (NDArray × NDArray)) (s : Store), Extends s (allocList s prs).1
  | [], s => extends_refl s
  | pr :: rest, s => by
      simp only [allocList]
      exact extends_trans (extends_trans (extends_allocA s pr.1) (extends_allocA _ pr.2))
        (allocList_extends rest _)

/-! ### set_params machinery -/

theorem netlayer_set_params_ok (s : Store) (ly : NetLayer) (b t : ℕ)
    (hb : (readA s b).size = ly.out_nodes)
    (ht : (readA s t).size = ly.out_nodes * ly.in_nodes) :
    NetLayer.set_params s ly b t
      = (s ++ [readA s b, readA s t],
         { ly with bias := storeLen s, theta := storeLen s + 1 }, none) := by
  simp [NetLayer.set_params, hb, ht, allocA, storeLen]

/-- Master specification of the `set_params` chain walk when every pair has
the right total sizes and all supplied references are live: the walk
succeeds, only appends fresh objects, replaces each layer's parameter
references by fresh copies holding the supplied values, and leaves the
dimensions and batch buffers alone. -/
theorem setParamsGo_ok (ch : List NetLayer) : ∀ (prs : List (ℕ × ℕ)) (s : Store),
    prs.length = ch.length →
    (∀ k, k < ch.length →
      (prs.getD k (0, 0)).1 < storeLen s ∧ (prs.getD k (0, 0)).2 < storeLen s ∧
      (readA s (prs.getD k (0, 0)).1).size = (ch.getD k nlD).out_nodes ∧
      (readA s (prs.getD k (0, 0)).2).size
        = (ch.getD k nlD).out_nodes * (ch.getD k nlD).in_nodes) →
    Extends s (setParamsGo s ch prs).1 ∧
    (setParamsGo s ch prs).2.2 = none ∧
    (setParamsGo s ch prs).2.1.length = ch.length ∧
    (∀ k, k < ch.length →
      ((setParamsGo s ch prs).2.1.getD k nlD).in_nodes = (ch.getD k nlD).in_nodes ∧
      ((setParamsGo s ch prs).2.1.getD k nlD).out_nodes = (ch.getD k nlD).out_nodes ∧
      ((setParamsGo s ch prs).2.1.getD k nlD).act = (ch.getD k nlD).act ∧
      ((setParamsGo s ch prs).2.1.getD k nlD).delta = (ch.getD k nlD).delta ∧
      storeLen s ≤ ((setParamsGo s ch prs).2.1.getD k nlD).bias ∧
      storeLen s ≤ ((setParamsGo s ch prs).2.1.getD k nlD).theta ∧
      ((setParamsGo s ch prs).2.1.getD k nlD).bias < storeLen (setParamsGo s ch prs).1 ∧
      ((setParamsGo s ch prs).2.1.getD k nlD).theta < storeLen (setParamsGo s ch prs).1 ∧
      readA (setParamsGo s ch prs).1 ((setParamsGo s ch prs).2.1.getD k nlD).bias
        = readA s (prs.getD k (0, 0)).1 ∧
      readA (setParamsGo s ch prs).1 ((setParamsGo s ch prs).2.1.getD k nlD).theta
        = readA s (prs.getD k (0, 0)).2) := by
  induction ch with
  | nil =>
      intro prs s _ _
      refine ⟨extends_refl s, ?_, ?_, ?_⟩ <;> simp [setParamsGo]
  | cons ly ch ih =>
      intro prs s hlen hsz
      cases prs with
      | nil => simp at hlen
      | cons pr prs =>
          have h0 := hsz 0 (Nat.succ_pos _)
          simp only [List.getD_cons_zero] at h0
          have hsp := netlayer_set_params_ok s ly pr.1 pr.2 h0.2.2.1 h0.2.2.2
          have hlen2 : storeLen (s ++ [readA s pr.1, readA s pr.2]) = storeLen s + 2 := by
            simp [storeLen]
          have hlen3 : prs.length = ch.length := by simpa using hlen
          have hsz2 : ∀ k, k < ch.length →
              (prs.getD k (0, 0)).1 < storeLen (s ++ [readA s pr.1, readA s pr.2]) ∧
              (prs.getD k (0, 0)).2 < storeLen (s ++ [readA s pr.1, readA s pr.2]) ∧
              (readA (s ++ [readA s pr.1, readA s pr.2]) (prs.getD k (0, 0)).1).size
                = (ch.getD k nlD).out_nodes ∧
              (readA (s ++ [readA s pr.1, readA s pr.2]) (prs.getD k (0, 0)).2).size
                = (ch.getD k nlD).out_nodes * (ch.getD k nlD).in_nodes := by
            intro k hk
            have h1 := hsz (k + 1) (Nat.succ_lt_succ hk)
            simp only [List.getD_cons_succ] at h1
            refine ⟨by omega, by omega, ?_, ?_⟩
            · rw [readA_append_lt s _ _ h1.1]; exact h1.2.2.1
            · rw [readA_append_lt s _ _ h1.2.1]; exact h1.2.2.2
          obtain ⟨hext, hnone, hli, hk⟩ := ih prs (s ++ [readA s pr.1, readA s pr.2]) hlen3 hsz2
          simp only [setParamsGo, hsp]
          have hsle : storeLen s + 2 ≤ storeLen (setParamsGo (s ++ [readA s pr.1, readA s pr.2]) ch prs).1 := by
            have := storeLen_le_of_extends hext
            omega
          refine ⟨?_, hnone, by simpa using hli, ?_⟩
          · exact extends_trans ⟨[readA s pr.1, readA s pr.2], rfl⟩ hext
          · intro k hkk
            cases k with
            | zero =>
                refine ⟨rfl, rfl, rfl, rfl, le_refl _, Nat.le_succ _, ?_, ?_, ?_, ?_⟩
                · exact lt_of_lt_of_le (show storeLen s < storeLen s + 2 by omega) hsle
                · exact lt_of_lt_of_le (show storeLen s + 1 < storeLen s + 2 by omega) hsle
                · show readA (setParamsGo (s ++ [readA s pr.1, readA s pr.2]) ch prs).1
                      (storeLen s) = readA s pr.1
                  rw [readA_of_extends hext _ (by omega), readA_append2_fst]
                · show readA (setParamsGo (s ++ [readA s pr.1, readA s pr.2]) ch prs).1
                      (storeLen s + 1) = readA s pr.2
                  rw [readA_of_extends hext _ (by omega), readA_append2_snd]
            | succ k =>
                obtain ⟨a1, a2, a3, a4, a5, a6, a7, a8, a9, a10⟩ := hk k (by simpa using hkk)
                have h1 := hsz (k + 1) (Nat.succ_lt_succ (by simpa using hkk))
                simp only [List.getD_cons_succ] at h1
                simp only [List.getD_cons_succ]
                refine ⟨a1, a2, a3, a4, by omega, by omega, a7, a8, ?_, ?_⟩
                · rw [a9]; exact readA_append_lt s _ _ h1.1
                · rw [a10]; exact readA_append_lt s _ _ h1.2.1

/-! ### Frame lemmas for the C engines' buffer writes -/

theorem storeLen_writeActs : ∀ (ch : List NetLayer) (As : List (List (List ℚ))) (s : Store),
    storeLen (writeActs s ch As) = storeLen s
  | [], _, _ => rfl
  | _ :: _, [], _ => rfl
  | ly :: ch, A :: As, s => by
      simp only [writeActs]
      rw [storeLen_writeActs ch As _, storeLen_writeA]

theorem readA_writeActs : ∀ (ch : List NetLayer) (As : List (List (List ℚ))) (s : Store)
    (r : ℕ), (∀ ly ∈ ch, r ≠ ly.act) → readA (writeActs s ch As) r = readA s r
  | [], _, _, _, _ => rfl
  | _ :: _, [], _, _, _ => rfl
  | ly :: ch, A :: As, s, r, h => by
      simp only [writeActs]
      rw [readA_writeActs ch As _ r (fun l hl => h l (List.mem_cons_of_mem _ hl)),
        readA_writeA_ne _ _ _ _ (h ly (List.mem_cons_self _ _))]

theorem storeLen_write4 (s : Store) (ly : NetLayer) (r : LayerRec) :
    storeLen (write4 s ly r) = storeLen s := by
  simp [write4, storeLen_writeA]

theorem readA_write4 (s : Store) (ly : NetLayer) (rec : LayerRec) (r : ℕ)
    (h : r ≠ ly.bias ∧ r ≠ ly.theta ∧ r ≠ ly.act ∧ r ≠ ly.delta) :
    readA (write4 s ly rec) r = readA s r := by
  simp only [write4]
  rw [readA_writeA_ne _ _ _ _ h.2.2.2, readA_writeA_ne _ _ _ _ h.2.2.1,
    readA_writeA_ne _ _ _ _ h.2.1, readA_writeA_ne _ _ _ _ h.1]

theorem storeLen_writeRecords : ∀ (ch : List NetLayer) (recs : List LayerRec) (s : Store),
    storeLen (writeRecords s ch recs) = storeLen s
  | [], _, _ => rfl
  | _ :: _, [], _ => rfl
  | ly :: ch, rec :: recs, s => by
      simp only [writeRecords]
      rw [storeLen_writeRecords ch recs _, storeLen_write4]

theorem readA_writeRecords : ∀ (ch : List NetLayer) (recs : List LayerRec) (s : Store)
    (r : ℕ), (∀ ly ∈ ch, r ≠ ly.bias ∧ r ≠ ly.theta ∧ r ≠ ly.act ∧ r ≠ ly.delta) →
    readA (writeRecords s ch recs) r = readA s r
  | [], _, _, _, _ => rfl
  | _ :: _, [], _, _, _ => rfl
  | ly :: ch, rec :: recs, s, r, h => by
      simp only [writeRecords]
      rw [readA_writeRecords ch recs _ r (fun l hl => h l (List.mem_cons_of_mem _ hl)),
        readA_write4 _ _ _ _ (h ly (List.mem_cons_self _ _))]

theorem chainTransforms_congr (s s2 : Store) (ch : List NetLayer)
    (h : ∀ ly ∈ ch, readA s2 ly.bias = readA s ly.bias ∧ readA s2 ly.theta = readA s ly.theta) :
    chainTransforms s2 ch = chainTransforms s ch := by
  unfold chainTransforms
  apply List.map_congr_left
  intro ly hly
  have h2 := h ly (List.dropLast_subset _ hly)
  rw [h2.1, h2.2]

theorem chainTransforms_extends {s s2 : Store} (hx : Extends s s2) (ch : List NetLayer)
    (hv : ∀ ly ∈ ch, ly.bias < storeLen s ∧ ly.theta < storeLen s) :
    chainTransforms s2 ch = chainTransforms s ch :=
  chainTransforms_congr s s2 ch (fun ly hly =>
    ⟨readA_of_extends hx _ (hv ly hly).1, readA_of_extends hx _ (hv ly hly).2⟩)

/-- Closed form of the value returned by `predict_prob`: on a shape match it
is the matrix of the full forward pass over the network's current
transforms, with shape `(n, n_labels)`; otherwise the shape-mismatch error.
The returned value depends only on the input value, the chain's dimensions
and parameter values, and `n_features`/`n_labels`. -/
theorem predProbData_eq (af : ℚ → ℚ) (s : Store) (net : NeuralNet) (fRef : ℕ)
    (hval : LiveRefs s net) :
    predProbData af s net fRef =
      if (readA s fRef).shape.getD 1 0 = net.n_features then
        .ok ⟨[(readA s fRef).shape.getD 0 0, net.n_labels],
          matFlatten (forwardAll af (chainTransforms s net.chain)
            (matRowsN (readA s fRef) ((readA s fRef).shape.getD 0 0)))⟩
      else .error .shapeMismatch := by
  by_cases hc : (readA s fRef).shape.getD 1 0 = net.n_features
  · have hS2 : (s ++ [readA s fRef]) ++
        [(⟨[(readA s fRef).shape.getD 0 0, net.n_labels],
          List.replicate ((readA s fRef).shape.getD 0 0 * net.n_labels) 0⟩ : NDArray)]
        = s ++ [readA s fRef,
          ⟨[(readA s fRef).shape.getD 0 0, net.n_labels],
            List.replicate ((readA s fRef).shape.getD 0 0 * net.n_labels) 0⟩] := by simp
    simp only [predProbData, NeuralNet.predict_prob, neural_predict_prob, allocA, if_pos hc,
      NDArray.mk_eta, hS2]
    rw [(by simp : (s ++ [readA s fRef]).length = s.length + 1)]
    have hx : Extends s (s ++ [readA s fRef,
        ⟨[(readA s fRef).shape.getD 0 0, net.n_labels],
          List.replicate ((readA s fRef).shape.getD 0 0 * net.n_labels) 0⟩]) := ⟨_, rfl⟩
    have hfc : readA (s ++ [readA s fRef,
        ⟨[(readA s fRef).shape.getD 0 0, net.n_labels],
          List.replicate ((readA s fRef).shape.getD 0 0 * net.n_labels) 0⟩]) s.length
        = readA s fRef := by
      have := readA_append2_fst s (readA s fRef)
        ⟨[(readA s fRef).shape.getD 0 0, net.n_labels],
          List.replicate ((readA s fRef).shape.getD 0 0 * net.n_labels) 0⟩
      simpa [storeLen] using this
    have htfs := chainTransforms_extends hx net.chain
      (fun ly hly => ⟨(hval ly hly).1, (hval ly hly).2.1⟩)
    rw [hfc, htfs]
    have hwa := readA_writeActs net.chain
      ((List.range net.chain.length).map
        (fun k => forwardAll af ((chainTransforms s net.chain).take k)
          (matRowsN (readA s fRef) ((readA s fRef).shape.getD 0 0))))
      (s ++ [readA s fRef,
        ⟨[(readA s fRef).shape.getD 0 0, net.n_labels],
          List.replicate ((readA s fRef).shape.getD 0 0 * net.n_labels) 0⟩])
      (s.length + 1)
      (fun ly hly => by have := (hval ly hly).2.2.1; simp [storeLen] at this; omega)
    have hpr : readA (s ++ [readA s fRef,
        ⟨[(readA s fRef).shape.getD 0 0, net.n_labels],
          List.replicate ((readA s fRef).shape.getD 0 0 * net.n_labels) 0⟩]) (s.length + 1)
        = ⟨[(readA s fRef).shape.getD 0 0, net.n_labels],
          List.replicate ((readA s fRef).shape.getD 0 0 * net.n_labels) 0⟩ := by
      have := readA_append2_snd s (readA s fRef)
        ⟨[(readA s fRef).shape.getD 0 0, net.n_labels],
          List.replicate ((readA s fRef).shape.getD 0 0 * net.n_labels) 0⟩
      simpa [storeLen] using this
    have hlen1 : s.length + 1 < storeLen (writeActs (s ++ [readA s fRef,
        ⟨[(readA s fRef).shape.getD 0 0, net.n_labels],
          List.replicate ((readA s fRef).shape.getD 0 0 * net.n_labels) 0⟩]) net.chain
        ((List.range net.chain.length).map
          (fun k => forwardAll af ((chainTransforms s net.chain).take k)
            (matRowsN (readA s fRef) ((readA s fRef).shape.getD 0 0))))) := by
      rw [storeLen_writeActs]
      simp [storeLen]
    rw [readA_writeA_self _ _ _ hlen1, hwa, hpr]
  · rw [if_neg hc]
    simp only [predProbData, NeuralNet.predict_prob]
    rw [if_neg hc]

/-- Closed form of `predictOn`. -/
theorem predictOn_eq (af : ℚ → ℚ) (s : Store) (net : NeuralNet) (fv : NDArray)
    (hval : LiveRefs s net) :
    predictOn af s net fv =
      if fv.shape.getD 1 0 = net.n_features then
        .ok ⟨[fv.shape.getD 0 0, net.n_labels],
          matFlatten (forwardAll af (chainTransforms s net.chain)
            (matRowsN fv (fv.shape.getD 0 0)))⟩
      else .error .shapeMismatch := by
  unfold predictOn
  have hval2 : LiveRefs (s ++ [fv]) net := by
    intro ly hly
    have h1 := hval ly hly
    simp only [storeLen, List.length_append, List.length_cons, List.length_nil] at h1 ⊢
    omega
  rw [predProbData_eq af _ net _ hval2, readA_append_self,
    chainTransforms_extends ⟨[fv], rfl⟩ net.chain
      (fun ly hly => ⟨(hval ly hly).1, (hval ly hly).2.1⟩)]

/-! ### Generic getD helpers -/

theorem list_getD_append_lt {α : Type} (l l2 : List α) (k : ℕ) (d : α) (h : k < l.length) :
    (l ++ l2).getD k d = l.getD k d := by
  simp [List.getD, List.getElem?_append_left h]

theorem list_getD_append_self {α : Type} (l : List α) (x : α) (d : α) :
    (l ++ [x]).getD l.length d = x := by
  simp [List.getD]

theorem list_getD_range_map {α : Type} (f : ℕ → α) (n k : ℕ) (d : α) (h : k < n) :
    ((List.range n).map f).getD k d = f k := by
  simp [List.getD, List.getElem?_range h]

theorem liveRefs_of_wf (s : Store) (net : NeuralNet) (h : WFNet s net) : LiveRefs s net := by
  intro ly hly
  obtain ⟨k, hk, rfl⟩ := List.getElem_of_mem hly
  have h5 := h.2.2.2.2 k hk
  rw [← List.getD_eq_getElem net.chain nlD hk]
  exact ⟨h5.2.2.2.2.1, h5.2.2.2.2.2.1, h5.2.2.2.2.2.2.1, h5.2.2.2.2.2.2.2⟩

/-! ### Construction: layerSpecs, allocLayers, set_batch, init -/

theorem layerSpecs_length (sizes : List ℕ) (h : 1 ≤ sizes.length) :
    (layerSpecs sizes).length = sizes.length := by
  simp [layerSpecs]
  omega

theorem layerSpecs_getD_lt (sizes : List ℕ) (k : ℕ) (hk : k < sizes.length - 1) :
    (layerSpecs sizes).getD k (0, 0) = (sizes.getD k 0, sizes.getD (k + 1) 0) := by
  unfold layerSpecs
  rw [list_getD_append_lt _ _ _ _ (by simpa using hk), list_getD_range_map _ _ _ _ hk]

theorem layerSpecs_getD_last (sizes : List ℕ) :
    (layerSpecs sizes).getD (sizes.length - 1) (0, 0) = (sizes.getD (sizes.length - 1) 0, 0) := by
  unfold layerSpecs
  have h2 := list_getD_append_self
    ((List.range (sizes.length - 1)).map (fun k => (sizes.getD k 0, sizes.getD (k + 1) 0)))
    (sizes.getD (sizes.length - 1) 0, 0) (0, 0)
  rw [show ((List.range (sizes.length - 1)).map
      (fun k => (sizes.getD k 0, sizes.getD (k + 1) 0))).length = sizes.length - 1 by simp] at h2
  exact h2

theorem netlayer_set_batch_eq (s : Store) (ly : NetLayer) (b : ℕ) :
    NetLayer.set_batch s ly b
      = (s ++ [⟨[ly.in_nodes * b], List.replicate (ly.in_nodes * b) 0⟩,
          ⟨[ly.in_nodes * b], List.replicate (ly.in_nodes * b) 0⟩],
         { ly with act := storeLen s, delta := storeLen s + 1 }) := by
  simp [NetLayer.set_batch, allocA, storeLen]

theorem setBatchGo_spec : ∀ (ch : List NetLayer) (s : Store) (b : ℕ),
    (setBatchGo s ch b).2.length = ch.length ∧
    ∀ k, k < ch.length →
      ((setBatchGo s ch b).2.getD k nlD).bias = (ch.getD k nlD).bias ∧
      ((setBatchGo s ch b).2.getD k nlD).theta = (ch.getD k nlD).theta ∧
      ((setBatchGo s ch b).2.getD k nlD).in_nodes = (ch.getD k nlD).in_nodes ∧
      ((setBatchGo s ch b).2.getD k nlD).out_nodes = (ch.getD k nlD).out_nodes ∧
      storeLen s ≤ ((setBatchGo s ch b).2.getD k nlD).act ∧
      storeLen s ≤ ((setBatchGo s ch b).2.getD k nlD).delta ∧
      ((setBatchGo s ch b).2.getD k nlD).act < storeLen (setBatchGo s ch b).1 ∧
      ((setBatchGo s ch b).2.getD k nlD).delta < storeLen (setBatchGo s ch b).1 := by
  intro ch
  induction ch with
  | nil => intro s b; exact ⟨rfl, fun k hk => absurd hk (by simp)⟩
  | cons ly ch ih =>
      intro s b
      have hsb := netlayer_set_batch_eq s ly b
      simp only [setBatchGo, hsb]
      obtain ⟨ihl, ihk⟩ := ih (s ++ [⟨[ly.in_nodes * b], List.replicate (ly.in_nodes * b) 0⟩,
          ⟨[ly.in_nodes * b], List.replicate (ly.in_nodes * b) 0⟩]) b
      have hx := setBatchGo_extends ch (s ++ [⟨[ly.in_nodes * b], List.replicate (ly.in_nodes * b) 0⟩,
          ⟨[ly.in_nodes * b], List.replicate (ly.in_nodes * b) 0⟩]) b
      have hsle : storeLen s + 2 ≤
          storeLen (setBatchGo (s ++ [⟨[ly.in_nodes * b], List.replicate (ly.in_nodes * b) 0⟩,
            ⟨[ly.in_nodes * b], List.replicate (ly.in_nodes * b) 0⟩]) ch b).1 := by
        have h1 := storeLen_le_of_extends hx
        have h2 : storeLen (s ++ [(⟨[ly.in_nodes * b], List.replicate (ly.in_nodes * b) 0⟩ : NDArray),
            ⟨[ly.in_nodes * b], List.replicate (ly.in_nodes * b) 0⟩]) = storeLen s + 2 := by
          simp [storeLen]
        omega
      refine ⟨by simpa using ihl, ?_⟩
      intro k hk
      cases k with
      | zero =>
          refine ⟨rfl, rfl, rfl, rfl, le_refl _, Nat.le_succ _, ?_, ?_⟩
          · exact lt_of_lt_of_le (show storeLen s < storeLen s + 2 by omega) hsle
          · exact lt_of_lt_of_le (show storeLen s + 1 < storeLen s + 2 by omega) hsle
      | succ k =>
          obtain ⟨b1, b2, b3, b4, b5, b6, b7, b8⟩ := ihk k (by simpa using hk)
          have h2 : storeLen (s ++ [(⟨[ly.in_nodes * b], List.replicate (ly.in_nodes * b) 0⟩ : NDArray),
              ⟨[ly.in_nodes * b], List.replicate (ly.in_nodes * b) 0⟩]) = storeLen s + 2 := by
            simp [storeLen]
          simp only [List.getD_cons_succ]
          exact ⟨b1, b2, b3, b4, by omega, by omega, b7, b8⟩

theorem netlayer_init_eq (s : Store) (inN outN : ℕ) (rb rt : ℕ → ℚ) :
    NetLayer.init s inN outN rb rt
      = (s ++ [⟨[outN], (List.range outN).map (fun i => 6/25 * rb i - 3/25)⟩,
          ⟨[outN * inN], (List.range (outN * inN)).map (fun i => 6/25 * rt i - 3/25)⟩],
         ⟨storeLen s, storeLen s + 1, 0, 0, inN, outN⟩) := by
  simp [NetLayer.init, allocA, storeLen]

theorem allocLayers_spec (rnd : ℕ → (ℕ → ℚ) × (ℕ → ℚ)) :
    ∀ (specs : List (ℕ × ℕ)) (s : Store) (idx : ℕ),
    (allocLayers rnd s idx specs).2.length = specs.length ∧
    ∀ k, k < specs.length →
      ((allocLayers rnd s idx specs).2.getD k nlD).in_nodes = (specs.getD k (0, 0)).1 ∧
      ((allocLayers rnd s idx specs).2.getD k nlD).out_nodes = (specs.getD k (0, 0)).2 ∧
      ((allocLayers rnd s idx specs).2.getD k nlD).bias
        < storeLen (allocLayers rnd s idx specs).1 ∧
      ((allocLayers rnd s idx specs).2.getD k nlD).theta
        < storeLen (allocLayers rnd s idx specs).1 ∧
      (readA (allocLayers rnd s idx specs).1
        ((allocLayers rnd s idx specs).2.getD k nlD).bias).size = (specs.getD k (0, 0)).2 ∧
      (readA (allocLayers rnd s idx specs).1
        ((allocLayers rnd s idx specs).2.getD k nlD).theta).size
        = (specs.getD k (0, 0)).2 * (specs.getD k (0, 0)).1 := by
  intro specs
  induction specs with
  | nil => intro s idx; exact ⟨rfl, fun k hk => absurd hk (by simp)⟩
  | cons hd rest ih =>
      obtain ⟨iN, oN⟩ := hd
      intro s idx
      have hie := netlayer_init_eq s iN oN (rnd idx).1 (rnd idx).2
      simp only [allocLayers, hie]
      obtain ⟨ihl, ihk⟩ := ih (s ++ [⟨[oN], (List.range oN).map (fun i => 6/25 * (rnd idx).1 i - 3/25)⟩,
          ⟨[oN * iN], (List.range (oN * iN)).map (fun i => 6/25 * (rnd idx).2 i - 3/25)⟩]) (idx + 1)
      have hx := allocLayers_extends rnd rest
        (s ++ [⟨[oN], (List.range oN).map (fun i => 6/25 * (rnd idx).1 i - 3/25)⟩,
          ⟨[oN * iN], (List.range (oN * iN)).map (fun i => 6/25 * (rnd idx).2 i - 3/25)⟩]) (idx + 1)
      have hs2 : storeLen (s ++ [(⟨[oN], (List.range oN).map
            (fun i => 6/25 * (rnd idx).1 i - 3/25)⟩ : NDArray),
          ⟨[oN * iN], (List.range (oN * iN)).map (fun i => 6/25 * (rnd idx).2 i - 3/25)⟩])
          = storeLen s + 2 := by simp [storeLen]
      have hsle := storeLen_le_of_extends hx
      refine ⟨by simpa using ihl, ?_⟩
      intro k hk
      cases k with
      | zero =>
          refine ⟨rfl, rfl, ?_, ?_, ?_, ?_⟩
          · exact lt_of_lt_of_le (show storeLen s < storeLen s + 2 by omega) (by omega)
          · exact lt_of_lt_of_le (show storeLen s + 1 < storeLen s + 2 by omega) (by omega)
          · show (readA (allocLayers rnd (s ++ [⟨[oN], (List.range oN).map
                (fun i => 6/25 * (rnd idx).1 i - 3/25)⟩,
                ⟨[oN * iN], (List.range (oN * iN)).map (fun i => 6/25 * (rnd idx).2 i - 3/25)⟩])
                (idx + 1) rest).1 (storeLen s)).size = oN
            rw [readA_of_extends hx _ (by omega), readA_append2_fst]
            simp [NDArray.size]
          · show (readA (allocLayers rnd (s ++ [⟨[oN], (List.range oN).map
                (fun i => 6/25 * (rnd idx).1 i - 3/25)⟩,
                ⟨[oN * iN], (List.range (oN * iN)).map (fun i => 6/25 * (rnd idx).2 i - 3/25)⟩])
                (idx + 1) rest).1 (storeLen s + 1)).size = oN * iN
            rw [readA_of_extends hx _ (by omega), readA_append2_snd]
            simp [NDArray.size]
      | succ k =>
          obtain ⟨d1, d2, d3, d4, d5, d6⟩ := ihk k (by simpa using hk)
          simp only [List.getD_cons_succ]
          exact ⟨d1, d2, d3, d4, d5, d6⟩

/-- Specification of `NeuralNet.__init__`: with at least two layer sizes it
succeeds and produces a well-formed network with `batch_size 100`, extending
the store. -/
theorem init_spec (s : Store) (sizes : List ℕ) (rnd : ℕ → (ℕ → ℚ) × (ℕ → ℚ))
    (h2 : 2 ≤ sizes.length) :
    ∃ s2 net, NeuralNet.init s sizes rnd = .ok (s2, net) ∧
      net.layers = sizes ∧ net.n_features = sizes.getD 0 0 ∧
      net.n_labels = sizes.getD (sizes.length - 1) 0 ∧ net.batch_size = 100 ∧
      net.chain.length = sizes.length ∧ WFNet s2 net ∧ Extends s s2 := by
  have h1 : 1 ≤ sizes.length := by omega
  obtain ⟨all, alk⟩ := allocLayers_spec rnd (layerSpecs sizes) s 0
  obtain ⟨sbl, sbk⟩ := setBatchGo_spec (allocLayers rnd s 0 (layerSpecs sizes)).2
      (allocLayers rnd s 0 (layerSpecs sizes)).1 100
  have hxa := allocLayers_extends rnd (layerSpecs sizes) s 0
  have hxb := setBatchGo_extends (allocLayers rnd s 0 (layerSpecs sizes)).2
      (allocLayers rnd s 0 (layerSpecs sizes)).1 100
  have hspl := layerSpecs_length sizes h1
  simp only [NeuralNet.init, NeuralNet.set_batch, if_pos h2]
  refine ⟨_, _, rfl, rfl, rfl, rfl, rfl, ?_, ?_, ?_⟩
  · rw [sbl, all, hspl]
  · refine ⟨h2, ?_, rfl, rfl, ?_⟩
    · rw [sbl, all, hspl]
    · intro k hk
      dsimp only at hk ⊢
      have hk2 : k < sizes.length := by
        rw [sbl, all, hspl] at hk; exact hk
      obtain ⟨c1, c2, c3, c4, c5, c6, c7, c8⟩ := sbk k (by rw [all, hspl]; exact hk2)
      obtain ⟨d1, d2, d3, d4, d5, d6⟩ := alk k (by rw [hspl]; exact hk2)
      refine ⟨?_, ?_, ?_, ?_, ?_, ?_, c7, c8⟩
      · rw [c3, d1]
        by_cases hlt : k < sizes.length - 1
        · rw [layerSpecs_getD_lt sizes k hlt]
        · rw [show k = sizes.length - 1 by omega, layerSpecs_getD_last]
      · rw [c4, d2]
        by_cases hlt : k < sizes.length - 1
        · rw [layerSpecs_getD_lt sizes k hlt, if_pos (by omega)]
        · rw [show k = sizes.length - 1 by omega, layerSpecs_getD_last,
            if_neg (by omega)]
      · rw [c1, c4, d2, readA_of_extends hxb _ d3, d5]
      · rw [c2, c4, d2, c3, d1, readA_of_extends hxb _ d4, d6]
      · rw [c1]; exact lt_of_lt_of_le d3 (storeLen_le_of_extends hxb)
      · rw [c2]; exact lt_of_lt_of_le d4 (storeLen_le_of_extends hxb)
  · exact extends_trans hxa hxb

/-! ### get_params / set_params wrapper lemmas -/

theorem get_params_length (net : NeuralNet) :
    net.get_params.length = net.chain.length := by
  simp [NeuralNet.get_params]

theorem get_params_getD (net : NeuralNet) (k : ℕ) (hk : k < net.chain.length) :
    net.get_params.getD k (0, 0)
      = ((net.chain.getD k nlD).bias, (net.chain.getD k nlD).theta) := by
  unfold NeuralNet.get_params
  rw [List.getD_eq_getElem _ _ (by simpa using hk), List.getElem_map,
    ← List.getD_eq_getElem net.chain nlD hk]
  rfl

theorem neuralnet_set_params_eq (s : Store) (net : NeuralNet) (prs : List (ℕ × ℕ))
    (hlen : prs.length = net.layers.length) :
    NeuralNet.set_params s net prs
      = ((setParamsGo s net.chain prs).1,
         { net with chain := (setParamsGo s net.chain prs).2.1 },
         (setParamsGo s net.chain prs).2.2) := by
  simp [NeuralNet.set_params, hlen]

/-- Two chains whose layers have equal dimensions and equal parameter values
(in their respective stores) have equal transform lists. -/
theorem chainTransforms_ext (s s2 : Store) (ch ch2 : List NetLayer)
    (hlen : ch2.length = ch.length)
    (h : ∀ k, k < ch.length →
      (ch2.getD k nlD).in_nodes = (ch.getD k nlD).in_nodes ∧
      (ch2.getD k nlD).out_nodes = (ch.getD k nlD).out_nodes ∧
      readA s2 (ch2.getD k nlD).bias = readA s (ch.getD k nlD).bias ∧
      readA s2 (ch2.getD k nlD).theta = readA s (ch.getD k nlD).theta) :
    chainTransforms s2 ch2 = chainTransforms s ch := by
  unfold chainTransforms
  apply List.ext_getElem
  · simp [hlen]
  · intro i h1 h2
    simp only [List.getElem_map, List.getElem_dropLast]
    have hi : i < ch.length := by
      simp only [List.length_map, List.length_dropLast] at h2
      omega
    have h3 := h i hi
    have hi2 : i < ch2.length := by omega
    rw [← List.getD_eq_getElem ch2 nlD hi2, ← List.getD_eq_getElem ch nlD hi,
      h3.1, h3.2.1, h3.2.2.1, h3.2.2.2]

/-- Consolidated specification of `NeuralNet.set_params` on a well-formed
network when every supplied pair is live and has the configured sizes: the
call succeeds, extends the store, keeps the network well-formed with all
scalar fields unchanged, replaces the stored parameter values by the
supplied values, and leaves dimensions and batch buffers alone. -/
theorem neuralnet_set_params_spec (s : Store) (net : NeuralNet) (prs : List (ℕ × ℕ))
    (hw : WFNet s net)
    (hlen : prs.length = net.layers.length)
    (hsz : ∀ k, k < net.chain.length →
      (prs.getD k (0, 0)).1 < storeLen s ∧ (prs.getD k (0, 0)).2 < storeLen s ∧
      (readA s (prs.getD k (0, 0)).1).size = (net.chain.getD k nlD).out_nodes ∧
      (readA s (prs.getD k (0, 0)).2).size
        = (net.chain.getD k nlD).out_nodes * (net.chain.getD k nlD).in_nodes) :
    (NeuralNet.set_params s net prs).2.2 = none ∧
    Extends s (NeuralNet.set_params s net prs).1 ∧
    (NeuralNet.set_params s net prs).2.1.layers = net.layers ∧
    (NeuralNet.set_params s net prs).2.1.n_features = net.n_features ∧
    (NeuralNet.set_params s net prs).2.1.n_labels = net.n_labels ∧
    (NeuralNet.set_params s net prs).2.1.batch_size = net.batch_size ∧
    WFNet (NeuralNet.set_params s net prs).1 (NeuralNet.set_params s net prs).2.1 ∧
    paramsData (NeuralNet.set_params s net prs).1 (NeuralNet.set_params s net prs).2.1
      = prs.map (fun pr => (readA s pr.1, readA s pr.2)) ∧
    (∀ k, k < net.chain.length →
      ((NeuralNet.set_params s net prs).2.1.chain.getD k nlD).in_nodes
        = (net.chain.getD k nlD).in_nodes ∧
      ((NeuralNet.set_params s net prs).2.1.chain.getD k nlD).out_nodes
        = (net.chain.getD k nlD).out_nodes ∧
      storeLen s ≤ ((NeuralNet.set_params s net prs).2.1.chain.getD k nlD).bias ∧
      storeLen s ≤ ((NeuralNet.set_params s net prs).2.1.chain.getD k nlD).theta ∧
      readA (NeuralNet.set_params s net prs).1
          ((NeuralNet.set_params s net prs).2.1.chain.getD k nlD).bias
        = readA s (prs.getD k (0, 0)).1 ∧
      readA (NeuralNet.set_params s net prs).1
          ((NeuralNet.set_params s net prs).2.1.chain.getD k nlD).theta
        = readA s (prs.getD k (0, 0)).2) := by
  have hlc : prs.length = net.chain.length := by rw [hlen, ← hw.2.1]
  obtain ⟨hext, hnone, hlg, hka⟩ := setParamsGo_ok net.chain prs s hlc hsz
  rw [neuralnet_set_params_eq s net prs hlen]
  dsimp only
  have hwf2 : WFNet (setParamsGo s net.chain prs).1
      { net with chain := (setParamsGo s net.chain prs).2.1 } := by
    refine ⟨hw.1, ?_, hw.2.2.1, hw.2.2.2.1, ?_⟩
    · dsimp only; rw [hlg, hw.2.1]
    · intro k hk
      dsimp only at hk ⊢
      have hk2 : k < net.chain.length := by rw [hlg] at hk; exact hk
      obtain ⟨a1, a2, a3, a4, a5, a6, a7, a8, a9, a10⟩ := hka k hk2
      obtain ⟨w1, w2, w3, w4, w5, w6, w7, w8⟩ := hw.2.2.2.2 k hk2
      obtain ⟨z1, z2, z3, z4⟩ := hsz k hk2
      refine ⟨?_, ?_, ?_, ?_, a7, a8, ?_, ?_⟩
      · rw [a1, w1]
      · rw [a2]; exact w2
      · rw [a9, a2, z3]
      · rw [a10, a2, a1, z4]
      · rw [a3]; exact lt_of_lt_of_le w7 (storeLen_le_of_extends hext)
      · rw [a4]; exact lt_of_lt_of_le w8 (storeLen_le_of_extends hext)
  refine ⟨hnone, hext, rfl, rfl, rfl, rfl, hwf2, ?_, ?_⟩
  · apply List.ext_getElem
    · simp only [paramsData, NeuralNet.get_params, List.length_map]
      rw [hlg, ← hlc]
    · intro i h1 h2
      simp only [paramsData, NeuralNet.get_params, List.length_map] at h1 h2
      have hi : i < net.chain.length := by rw [hlg] at h1; exact h1
      obtain ⟨a1, a2, a3, a4, a5, a6, a7, a8, a9, a10⟩ := hka i hi
      simp only [paramsData, NeuralNet.get_params, List.map_map, List.getElem_map]
      dsimp only
      rw [← List.getD_eq_getElem (setParamsGo s net.chain prs).2.1 nlD h1,
        ← List.getD_eq_getElem prs (0, 0) (by omega : i < prs.length)]
      show (readA (setParamsGo s net.chain prs).1
          ((setParamsGo s net.chain prs).2.1.getD i nlD).bias,
        readA (setParamsGo s net.chain prs).1
          ((setParamsGo s net.chain prs).2.1.getD i nlD).theta)
        = ((readA s (prs.getD i (0, 0)).1), readA s (prs.getD i (0, 0)).2)
      rw [a9, a10]
  · intro k hk
    obtain ⟨a1, a2, a3, a4, a5, a6, a7, a8, a9, a10⟩ := hka k hk
    exact ⟨a1, a2, a5, a6, a9, a10⟩

/-- Claim C2: on every well-formed network, `set_params(get_params())`
succeeds and is a no-op with respect to the output of every subsequent
`predict_prob` call (for any activation function and any input value). -/
theorem C2_param_roundtrip_noop (s : Store) (net : NeuralNet) (hw : WFNet s net) :
    (NeuralNet.set_params s net net.get_params).2.2 = none ∧
    ∀ (af : ℚ → ℚ) (fv : NDArray),
      predictOn af (NeuralNet.set_params s net net.get_params).1
        (NeuralNet.set_params s net net.get_params).2.1 fv
      = predictOn af s net fv := by
  have hlen : net.get_params.length = net.layers.length := by
    rw [get_params_length, hw.2.1]
  have hsz : ∀ k, k < net.chain.length →
      (net.get_params.getD k (0, 0)).1 < storeLen s ∧
      (net.get_params.getD k (0, 0)).2 < storeLen s ∧
      (readA s (net.get_params.getD k (0, 0)).1).size = (net.chain.getD k nlD).out_nodes ∧
      (readA s (net.get_params.getD k (0, 0)).2).size
        = (net.chain.getD k nlD).out_nodes * (net.chain.getD k nlD).in_nodes := by
    intro k hk
    rw [get_params_getD net k hk]
    obtain ⟨w1, w2, w3, w4, w5, w6, w7, w8⟩ := hw.2.2.2.2 k hk
    exact ⟨w5, w6, w3, w4⟩
  obtain ⟨hnone, hext, hl, hf, hlb, hbs, hwf2, hpd, hidx⟩ :=
    neuralnet_set_params_spec s net net.get_params hw hlen hsz
  refine ⟨hnone, ?_⟩
  intro af fv
  rw [predictOn_eq af _ _ fv (liveRefs_of_wf _ _ hwf2),
    predictOn_eq af s net fv (liveRefs_of_wf _ _ hw), hf, hlb]
  have htr : chainTransforms (NeuralNet.set_params s net net.get_params).1
      (NeuralNet.set_params s net net.get_params).2.1.chain
      = chainTransforms s net.chain := by
    apply chainTransforms_ext
    · rw [hwf2.2.1, hl, ← hw.2.1]
    · intro k hk
      obtain ⟨b1, b2, _, _, b5, b6⟩ := hidx k hk
      rw [get_params_getD net k hk] at b5 b6
      exact ⟨b1, b2, b5, b6⟩
  rw [htr]

/-- Witness for C2 at the concrete `[1, 1]` network. -/
theorem C2_param_roundtrip_noop_witness :
    WFNet wStore wNet ∧
    (NeuralNet.set_params wStore wNet wNet.get_params).2.2 = none ∧
    predictOn id (NeuralNet.set_params wStore wNet wNet.get_params).1
      (NeuralNet.set_params wStore wNet wNet.get_params).2.1 wFeat
    = predictOn id wStore wNet wFeat :=
  ⟨by decide, (C2_param_roundtrip_noop wStore wNet (by decide)).1,
    (C2_param_roundtrip_noop wStore wNet (by decide)).2 id wFeat⟩

/-! ### Serialization lemmas -/

theorem paramsData_length (s : Store) (net : NeuralNet) :
    (paramsData s net).length = net.chain.length := by
  simp [paramsData, NeuralNet.get_params]

theorem paramsData_getD (s : Store) (net : NeuralNet) (k : ℕ) (hk : k < net.chain.length) :
    (paramsData s net).getD k (⟨[], []⟩, ⟨[], []⟩)
      = (readA s (net.chain.getD k nlD).bias, readA s (net.chain.getD k nlD).theta) := by
  unfold paramsData NeuralNet.get_params
  rw [List.getD_eq_getElem _ _ (by simpa using hk)]
  simp only [List.getElem_map]
  rw [← List.getD_eq_getElem net.chain nlD hk]
  rfl

theorem allocList_cons (st : Store) (v : NDArray × NDArray) (rest : List (NDArray × NDArray)) :
    allocList st (v :: rest)
      = ((allocList (st ++ [v.1, v.2]) rest).1,
         (storeLen st, storeLen st + 1) :: (allocList (st ++ [v.1, v.2]) rest).2) := by
  simp [allocList, allocA, storeLen]

theorem allocList_spec : ∀ (vals : List (NDArray × NDArray)) (st : Store),
    (allocList st vals).2.length = vals.length ∧
    ∀ k, k < vals.length →
      ((allocList st vals).2.getD k (0, 0)).1 < storeLen (allocList st vals).1 ∧
      ((allocList st vals).2.getD k (0, 0)).2 < storeLen (allocList st vals).1 ∧
      readA (allocList st vals).1 ((allocList st vals).2.getD k (0, 0)).1
        = (vals.getD k (⟨[], []⟩, ⟨[], []⟩)).1 ∧
      readA (allocList st vals).1 ((allocList st vals).2.getD k (0, 0)).2
        = (vals.getD k (⟨[], []⟩, ⟨[], []⟩)).2 := by
  intro vals
  induction vals with
  | nil => intro st; exact ⟨rfl, fun k hk => absurd hk (by simp)⟩
  | cons v rest ih =>
      intro st
      rw [allocList_cons]
      dsimp only
      obtain ⟨ihl, ihk⟩ := ih (st ++ [v.1, v.2])
      have hx := allocList_extends rest (st ++ [v.1, v.2])
      have hs2 : storeLen (st ++ [v.1, v.2]) = storeLen st + 2 := by simp [storeLen]
      have hsle := storeLen_le_of_extends hx
      refine ⟨by simpa using ihl, ?_⟩
      intro k hk
      cases k with
      | zero =>
          simp only [List.getD_cons_zero]
          refine ⟨by omega, by omega, ?_, ?_⟩
          · show readA (allocList (st ++ [v.1, v.2]) rest).1 (storeLen st) = v.1
            rw [readA_of_extends hx _ (by omega), readA_append2_fst]
          · show readA (allocList (st ++ [v.1, v.2]) rest).1 (storeLen st + 1) = v.2
            rw [readA_of_extends hx _ (by omega), readA_append2_snd]
      | succ k =>
          obtain ⟨d1, d2, d3, d4⟩ := ihk k (by simpa using hk)
          simp only [List.getD_cons_succ]
          exact ⟨d1, d2, d3, d4⟩

/-- Reduction of `loads` when construction and `set_params` both succeed. -/
theorem loads_eq_of (st : Store) (lys : List ℕ) (vals : List (NDArray × NDArray))
    (rnd : ℕ → (ℕ → ℚ) × (ℕ → ℚ)) (s2 : Store) (net1 : NeuralNet)
    (hinit : NeuralNet.init (allocList st vals).1 lys rnd = .ok (s2, net1))
    (hnone : (NeuralNet.set_params s2 net1 (allocList st vals).2).2.2 = none) :
    NeuralNet.loads st ⟨lys, vals⟩ rnd
      = .ok ((NeuralNet.set_params s2 net1 (allocList st vals).2).1,
             (NeuralNet.set_params s2 net1 (allocList st vals).2).2.1) := by
  have hsp : NeuralNet.set_params s2 net1 (allocList st vals).2
      = ((NeuralNet.set_params s2 net1 (allocList st vals).2).1,
         (NeuralNet.set_params s2 net1 (allocList st vals).2).2.1, none) := by
    rw [← hnone]
  unfold NeuralNet.loads
  dsimp only
  rw [hinit]
  dsimp only
  rw [hsp]

/-- Claim C1: serialization round-trip. For every well-formed network,
`loads(dumps(net))` (into any target store, with any random oracle for the
intermediate `random_init`) succeeds and produces a network whose
`get_params` values equal the original's and whose `predict_prob` output
equals the original's on every input value, for every activation function. -/
theorem C1_serialization_roundtrip (s : Store) (net : NeuralNet) (hw : WFNet s net)
    (st : Store) (rnd : ℕ → (ℕ → ℚ) × (ℕ → ℚ)) :
    ∃ s3 net2, NeuralNet.loads st (NeuralNet.dumps s net) rnd = .ok (s3, net2) ∧
      paramsData s3 net2 = paramsData s net ∧
      ∀ (af : ℚ → ℚ) (fv : NDArray), predictOn af s3 net2 fv = predictOn af s net fv := by
  have hchainlen : net.chain.length = net.layers.length := hw.2.1
  obtain ⟨all, alk⟩ := allocList_spec (paramsData s net) st
  obtain ⟨s2, net1, hinit, hl1, hf1, hlb1, hbs1, hcl1, hwf1, hx1⟩ :=
    init_spec (allocList st (paramsData s net)).1 net.layers rnd hw.1
  have hpl : (paramsData s net).length = net.chain.length := paramsData_length s net
  -- values seen by set_params in the store after init
  have hvals : ∀ k, k < net.chain.length →
      ((allocList st (paramsData s net)).2.getD k (0, 0)).1 < storeLen s2 ∧
      ((allocList st (paramsData s net)).2.getD k (0, 0)).2 < storeLen s2 ∧
      readA s2 ((allocList st (paramsData s net)).2.getD k (0, 0)).1
        = readA s (net.chain.getD k nlD).bias ∧
      readA s2 ((allocList st (paramsData s net)).2.getD k (0, 0)).2
        = readA s (net.chain.getD k nlD).theta := by
    intro k hk
    obtain ⟨d1, d2, d3, d4⟩ := alk k (by omega)
    have hle := storeLen_le_of_extends hx1
    rw [paramsData_getD s net k hk] at d3 d4
    refine ⟨by omega, by omega, ?_, ?_⟩
    · rw [readA_of_extends hx1 _ d1, d3]
    · rw [readA_of_extends hx1 _ d2, d4]
  have hlen : (allocList st (paramsData s net)).2.length = net1.layers.length := by
    rw [all, hpl, hchainlen, hl1]
  have hsz : ∀ k, k < net1.chain.length →
      ((allocList st (paramsData s net)).2.getD k (0, 0)).1 < storeLen s2 ∧
      ((allocList st (paramsData s net)).2.getD k (0, 0)).2 < storeLen s2 ∧
      (readA s2 ((allocList st (paramsData s net)).2.getD k (0, 0)).1).size
        = (net1.chain.getD k nlD).out_nodes ∧
      (readA s2 ((allocList st (paramsData s net)).2.getD k (0, 0)).2).size
        = (net1.chain.getD k nlD).out_nodes * (net1.chain.getD k nlD).in_nodes := by
    intro k hk
    have hk2 : k < net.chain.length := by omega
    obtain ⟨v1, v2, v3, v4⟩ := hvals k hk2
    obtain ⟨w1, w2, w3, w4, _, _, _, _⟩ := hw.2.2.2.2 k hk2
    obtain ⟨u1, u2, _, _, _, _, _, _⟩ := hwf1.2.2.2.2 k hk
    refine ⟨v1, v2, ?_, ?_⟩
    · rw [v3, w3, w2, u2, hl1]
    · rw [v4, w4, w2, w1, u2, u1, hl1]
  obtain ⟨hnone, hext2, hl2, hf2, hlb2, hbs2, hwf2, hpd2, hidx2⟩ :=
    neuralnet_set_params_spec s2 net1 (allocList st (paramsData s net)).2 hwf1 hlen hsz
  have hloads := loads_eq_of st net.layers (paramsData s net) rnd s2 net1 hinit hnone
  simp only [NeuralNet.dumps]
  refine ⟨_, _, hloads, ?_, ?_⟩
  · rw [hpd2]
    apply List.ext_getElem
    · rw [List.length_map, all]
    · intro i h1 h2
      rw [List.length_map, all, hpl] at h1
      rw [paramsData_length] at h2
      rw [List.getElem_map, ← List.getD_eq_getElem (allocList st (paramsData s net)).2 (0, 0)
        (by rw [all, hpl]; exact h1)]
      rw [← List.getD_eq_getElem (paramsData s net) (⟨[], []⟩, ⟨[], []⟩) (by rw [paramsData_length]; exact h1),
        paramsData_getD s net i h1]
      obtain ⟨v1, v2, v3, v4⟩ := hvals i h1
      rw [v3, v4]
  · intro af fv
    rw [predictOn_eq af _ _ fv (liveRefs_of_wf _ _ hwf2),
      predictOn_eq af s net fv (liveRefs_of_wf _ _ hw)]
    have hff : (NeuralNet.set_params s2 net1 (allocList st (paramsData s net)).2).2.1.n_features
        = net.n_features := by
      rw [hf2, hf1, hw.2.2.1]
    have hll : (NeuralNet.set_params s2 net1 (allocList st (paramsData s net)).2).2.1.n_labels
        = net.n_labels := by
      rw [hlb2, hlb1, hw.2.2.2.1]
    have htr : chainTransforms (NeuralNet.set_params s2 net1 (allocList st (paramsData s net)).2).1
        (NeuralNet.set_params s2 net1 (allocList st (paramsData s net)).2).2.1.chain
        = chainTransforms s net.chain := by
      apply chainTransforms_ext
      · rw [hwf2.2.1, hl2, hl1, ← hchainlen]
      · intro k hk
        have hk1 : k < net1.chain.length := by omega
        obtain ⟨b1, b2, _, _, b5, b6⟩ := hidx2 k hk1
        obtain ⟨v1, v2, v3, v4⟩ := hvals k hk
        obtain ⟨w1, w2, _, _, _, _, _, _⟩ := hw.2.2.2.2 k hk
        obtain ⟨u1, u2, _, _, _, _, _, _⟩ := hwf1.2.2.2.2 k hk1
        refine ⟨?_, ?_, ?_, ?_⟩
        · rw [b1, u1, hl1, w1]
        · rw [b2, u2, hl1, w2]
        · rw [b5, v3]
        · rw [b6, v4]
    rw [hff, hll, htr]

/-- Witness for C1 at the concrete `[1, 1]` network. -/
theorem C1_serialization_roundtrip_witness :
    WFNet wStore wNet ∧
    ∃ s3 net2, NeuralNet.loads [] (NeuralNet.dumps wStore wNet)
        (fun _ => (fun _ => 0, fun _ => 0)) = .ok (s3, net2) ∧
      paramsData s3 net2 = paramsData wStore wNet ∧
      ∀ (af : ℚ → ℚ) (fv : NDArray), predictOn af s3 net2 fv = predictOn af wStore wNet fv :=
  ⟨by decide, C1_serialization_roundtrip wStore wNet (by decide) []
    (fun _ => (fun _ => 0, fun _ => 0))⟩

/-- Counterexample for claim C3: `get_params` returns the layer's internal
array objects (no value copy out), so writing through a returned reference
does change the parameters stored in the network's layer — refuting the
claim that such a mutation leaves the stored parameters unchanged (shown on
the concrete `[1, 1]` network `wNet`). -/
theorem C3_get_params_copy_counterexample :
    ((NeuralNet.get_params wNet).getD 0 (0, 0)).1 = (wNet.chain.getD 0 nlD).bias ∧
    readA (writeA wStore ((NeuralNet.get_params wNet).getD 0 (0, 0)).1 ⟨[1], [7]⟩)
        (wNet.chain.getD 0 nlD).bias
      ≠ readA wStore (wNet.chain.getD 0 nlD).bias := by decide

/-- Claim C3 as amended: `get_params` returns the layers' internal array
references with no copy out (so mutating a returned array mutates the
network — see the counterexample), while `set_params` moves values in by
copy: after a successful `set_params`, writing any previously existing
array object (in particular the arrays the caller passed in) changes
neither the stored parameter values nor any subsequent `predict_prob`
output. -/
theorem C3_amended_set_params_copies (s : Store) (net : NeuralNet) (prs : List (ℕ × ℕ))
    (hw : WFNet s net)
    (hlen : prs.length = net.layers.length)
    (hsz : ∀ k, k < net.chain.length →
      (prs.getD k (0, 0)).1 < storeLen s ∧ (prs.getD k (0, 0)).2 < storeLen s ∧
      (readA s (prs.getD k (0, 0)).1).size = (net.chain.getD k nlD).out_nodes ∧
      (readA s (prs.getD k (0, 0)).2).size
        = (net.chain.getD k nlD).out_nodes * (net.chain.getD k nlD).in_nodes) :
    NeuralNet.get_params net = net.chain.map (fun ly => (ly.bias, ly.theta)) ∧
    (NeuralNet.set_params s net prs).2.2 = none ∧
    ∀ r, r < storeLen s → ∀ (v : NDArray) (af : ℚ → ℚ) (fv : NDArray),
      paramsData (writeA (NeuralNet.set_params s net prs).1 r v)
          (NeuralNet.set_params s net prs).2.1
        = paramsData (NeuralNet.set_params s net prs).1 (NeuralNet.set_params s net prs).2.1 ∧
      predictOn af (writeA (NeuralNet.set_params s net prs).1 r v)
          (NeuralNet.set_params s net prs).2.1 fv
        = predictOn af (NeuralNet.set_params s net prs).1
            (NeuralNet.set_params s net prs).2.1 fv := by
  obtain ⟨hnone, hext, hl, hf, hlb, hbs, hwf2, hpd, hidx⟩ :=
    neuralnet_set_params_spec s net prs hw hlen hsz
  have hchain2 : (NeuralNet.set_params s net prs).2.1.chain.length = net.chain.length := by
    rw [hwf2.2.1, hl, ← hw.2.1]
  refine ⟨rfl, hnone, ?_⟩
  intro r hr v af fv
  have hne : ∀ k, k < (NeuralNet.set_params s net prs).2.1.chain.length →
      ((NeuralNet.set_params s net prs).2.1.chain.getD k nlD).bias ≠ r ∧
      ((NeuralNet.set_params s net prs).2.1.chain.getD k nlD).theta ≠ r := by
    intro k hk
    obtain ⟨_, _, h3, h4, _, _⟩ := hidx k (by omega)
    omega
  constructor
  · apply List.ext_getElem
    · simp [paramsData, NeuralNet.get_params]
    · intro i h1 h2
      have h1b : i < (NeuralNet.set_params s net prs).2.1.chain.length := by
        simpa [paramsData_length] using h1
      rw [← List.getD_eq_getElem _ (⟨[], []⟩, ⟨[], []⟩) h1,
        ← List.getD_eq_getElem _ (⟨[], []⟩, ⟨[], []⟩) h2,
        paramsData_getD (writeA (NeuralNet.set_params s net prs).1 r v) _ i h1b,
        paramsData_getD (NeuralNet.set_params s net prs).1 _ i h1b,
        readA_writeA_ne _ _ _ _ (hne i h1b).1, readA_writeA_ne _ _ _ _ (hne i h1b).2]
  · have hlive2 : LiveRefs (writeA (NeuralNet.set_params s net prs).1 r v)
        (NeuralNet.set_params s net prs).2.1 := by
      intro ly hly
      have h1 := liveRefs_of_wf _ _ hwf2 ly hly
      rw [storeLen_writeA]
      exact h1
    rw [predictOn_eq af _ _ fv hlive2, predictOn_eq af _ _ fv (liveRefs_of_wf _ _ hwf2)]
    have htr : chainTransforms (writeA (NeuralNet.set_params s net prs).1 r v)
        (NeuralNet.set_params s net prs).2.1.chain
        = chainTransforms (NeuralNet.set_params s net prs).1
            (NeuralNet.set_params s net prs).2.1.chain := by
      apply chainTransforms_ext _ _ _ _ rfl
      intro k hk
      exact ⟨rfl, rfl, readA_writeA_ne _ _ _ _ (hne k hk).1,
        readA_writeA_ne _ _ _ _ (hne k hk).2⟩
    rw [htr]

/-- Witness for the amended C3 at the concrete `[1, 1]` network, mutating a
caller-side array after `set_params`. -/
theorem C3_amended_set_params_copies_witness :
    WFNet wStore wNet ∧ 0 < storeLen wStore ∧
    (NeuralNet.set_params wStore wNet wNet.get_params).2.2 = none ∧
    predictOn id (writeA (NeuralNet.set_params wStore wNet wNet.get_params).1 0 ⟨[1], [7]⟩)
        (NeuralNet.set_params wStore wNet wNet.get_params).2.1 wFeat
      = predictOn id (NeuralNet.set_params wStore wNet wNet.get_params).1
          (NeuralNet.set_params wStore wNet wNet.get_params).2.1 wFeat :=
  ⟨by decide, by decide,
    (C3_amended_set_params_copies wStore wNet wNet.get_params (by decide) (by decide)
      (by decide)).2.1,
    ((C3_amended_set_params_copies wStore wNet wNet.get_params (by decide) (by decide)
      (by decide)).2.2 0 (by decide) ⟨[1], [7]⟩ id wFeat).2⟩

/-- Counterexample for claim C7: `NetLayer.set_params` checks only
`np.size`, not the shape — a theta whose numpy shape is `(2, 3)` rather
than the configured `(out_nodes, in_nodes) = (3, 2)` is accepted without
error, refuting the claim that the call fails whenever theta is not of
shape `(out_nodes, in_nodes)`. -/
theorem C7_set_params_shape_counterexample :
    (readA wLayerStore 1).shape ≠ [wLayer.out_nodes, wLayer.in_nodes] ∧
    (NetLayer.set_params wLayerStore wLayer 0 1).2.2 = none := by decide

/-- Claim C7 as amended: `set_params(bias, theta)` succeeds exactly when
`np.size(bias) = out_nodes` and `np.size(theta) = out_nodes * in_nodes`
(the element counts, regardless of array shape); on success it replaces the
stored parameters with copies of the supplied values, and on failure it
raises ShapeMismatch leaving the layer and store untouched. -/
theorem C7_amended_set_params_sizes (s : Store) (ly : NetLayer) (b t : ℕ) :
    ((NetLayer.set_params s ly b t).2.2 = none ↔
      (readA s b).size = ly.out_nodes ∧ (readA s t).size = ly.out_nodes * ly.in_nodes) ∧
    ((NetLayer.set_params s ly b t).2.2 = none →
      readA (NetLayer.set_params s ly b t).1 (NetLayer.set_params s ly b t).2.1.bias
          = readA s b ∧
      readA (NetLayer.set_params s ly b t).1 (NetLayer.set_params s ly b t).2.1.theta
          = readA s t ∧
      (NetLayer.set_params s ly b t).2.1.in_nodes = ly.in_nodes ∧
      (NetLayer.set_params s ly b t).2.1.out_nodes = ly.out_nodes) ∧
    ((NetLayer.set_params s ly b t).2.2 ≠ none →
      (NetLayer.set_params s ly b t).2.2 = some .shapeMismatch ∧
      (NetLayer.set_params s ly b t).1 = s ∧
      (NetLayer.set_params s ly b t).2.1 = ly) := by
  by_cases hb : (readA s b).size = ly.out_nodes
  · by_cases ht : (readA s t).size = ly.out_nodes * ly.in_nodes
    · rw [netlayer_set_params_ok s ly b t hb ht]
      refine ⟨by simp [hb, ht], ?_, ?_⟩
      · intro _
        exact ⟨readA_append2_fst s (readA s b) (readA s t),
          readA_append2_snd s (readA s b) (readA s t), rfl, rfl⟩
      · intro hcon
        exact absurd rfl hcon
    · have he : NetLayer.set_params s ly b t = (s, ly, some .shapeMismatch) := by
        simp [NetLayer.set_params, hb, ht]
      rw [he]
      exact ⟨by simp [ht], fun h => absurd h (by simp), fun _ => ⟨rfl, rfl, rfl⟩⟩
  · have he : NetLayer.set_params s ly b t = (s, ly, some .shapeMismatch) := by
      simp [NetLayer.set_params, hb]
    rw [he]
    exact ⟨by simp [hb], fun h => absurd h (by simp), fun _ => ⟨rfl, rfl, rfl⟩⟩

/-- Witness for the amended C7: the size-matching call succeeds and stores
the supplied arrays; a call whose theta has the wrong total size fails with
ShapeMismatch. -/
theorem C7_amended_set_params_sizes_witness :
    (NetLayer.set_params wLayerStore wLayer 0 1).2.2 = none ∧
    (NetLayer.set_params wLayerStore wLayer 0 1).2.1.in_nodes = wLayer.in_nodes ∧
    (NetLayer.set_params wLayerStore wLayer 0 0).2.2 = some .shapeMismatch :=
  ⟨(C7_amended_set_params_sizes wLayerStore wLayer 0 1).1.mpr (by decide),
   ((C7_amended_set_params_sizes wLayerStore wLayer 0 1).2.1
     ((C7_amended_set_params_sizes wLayerStore wLayer 0 1).1.mpr (by decide))).2.2.1,
   ((C7_amended_set_params_sizes wLayerStore wLayer 0 0).2.2 (by decide)).1⟩

/-- Claim C5: `train` fails with ShapeMismatch whenever the row counts of
features and labels disagree, or the feature column count disagrees with
`n_features`, or the label column count disagrees with `n_labels` — and in
every such case the returned state is exactly the input state: no layer
state (parameters or batch buffers) has been touched. -/
theorem C5_train_shape_validation (af : ℚ → ℚ) (s : Store) (net : NeuralNet)
    (fRef lRef max_iter bsz : ℕ) (alpha lamb decay : ℚ) (permO : ℕ → List ℕ)
    (hbad : (readA s fRef).shape.getD 0 0 ≠ (readA s lRef).shape.getD 0 0 ∨
            (readA s fRef).shape.getD 1 0 ≠ net.n_features ∨
            (readA s lRef).shape.getD 1 0 ≠ net.n_labels) :
    NeuralNet.train af s net fRef lRef max_iter bsz alpha lamb decay permO
      = (s, net, [], some .shapeMismatch) := by
  by_cases h1 : (readA s fRef).shape.getD 0 0 = (readA s lRef).shape.getD 0 0
  · by_cases h2 : (readA s fRef).shape.getD 1 0 = net.n_features
    · by_cases h3 : (readA s lRef).shape.getD 1 0 = net.n_labels
      · rcases hbad with hb | hb | hb <;> contradiction
      · unfold NeuralNet.train
        rw [if_neg (not_not_intro h1), if_neg (not_not_intro h2), if_pos h3]
    · unfold NeuralNet.train
      rw [if_neg (not_not_intro h1), if_pos h2]
  · unfold NeuralNet.train
    rw [if_pos h1]

/-- Witness for C5: a call whose feature row count (3) differs from the
label row count (2) returns ShapeMismatch with the state unchanged. -/
theorem C5_train_shape_validation_witness :
    (readA wStoreT 8).shape.getD 0 0 ≠ (readA wStoreT 10).shape.getD 0 0 ∧
    NeuralNet.train id wStoreT wNet 8 10 1 1 1 0 1 (fun _ => [0, 1, 2])
      = (wStoreT, wNet, [], some .shapeMismatch) :=
  ⟨by decide, C5_train_shape_validation id wStoreT wNet 8 10 1 1 1 0 1
    (fun _ => [0, 1, 2]) (Or.inl (by decide))⟩

/-- Counterexample for claim C6: a `train` call whose sample count (3) is
not a multiple of `batch_size` (2) does not fail — no InvalidConfiguration
(nor any other) error is raised; `train` performs no divisibility check. -/
theorem C6_divisibility_counterexample :
    ¬ (2 ∣ (readA wStoreT 8).shape.getD 0 0) ∧
    (NeuralNet.train id wStoreT wNet 8 9 1 2 1 0 1 (fun _ => [0, 1, 2])).2.2.2 = none := by
  decide

/-- Claim C6 as amended: `train` validates only the three shape agreements
and `batch_size > 0`; every call passing those four checks runs to
completion with no error, whether or not `batch_size` divides the sample
count (the C core then processes `n_samples / batch_size` full batches,
dropping any remainder rows). -/
theorem C6_amended_no_divisibility_check (af : ℚ → ℚ) (s : Store) (net : NeuralNet)
    (fRef lRef max_iter bsz : ℕ) (alpha lamb decay : ℚ) (permO : ℕ → List ℕ)
    (h1 : (readA s fRef).shape.getD 0 0 = (readA s lRef).shape.getD 0 0)
    (h2 : (readA s fRef).shape.getD 1 0 = net.n_features)
    (h3 : (readA s lRef).shape.getD 1 0 = net.n_labels)
    (h4 : bsz ≠ 0) :
    (NeuralNet.train af s net fRef lRef max_iter bsz alpha lamb decay permO).2.2.2 = none := by
  unfold NeuralNet.train
  rw [if_neg (not_not_intro h1), if_neg (not_not_intro h2), if_neg (not_not_intro h3),
    if_neg h4]

/-- Witness for the amended C6 at a non-divisible configuration
(3 samples, batch size 2). -/
theorem C6_amended_no_divisibility_check_witness :
    ¬ (2 ∣ (readA wStoreT 8).shape.getD 0 0) ∧
    (NeuralNet.train id wStoreT wNet 8 9 5 2 1 0 1 (fun _ => [0, 1, 2])).2.2.2 = none :=
  ⟨by decide, C6_amended_no_divisibility_check id wStoreT wNet 8 9 5 2 1 0 1
    (fun _ => [0, 1, 2]) (by decide) (by decide) (by decide) (by decide)⟩

/-- The alpha trace of the epoch loop is the geometric sequence
`alpha * decay ^ j`, one entry per epoch. -/
theorem trainLoop_trace (af : ℚ → ℚ) (chain : List NetLayer) (fRef lRef bsz : ℕ)
    (lamb decay : ℚ) (permO : ℕ → List ℕ) :
    ∀ (m : ℕ) (s : Store) (a : ℚ) (k0 : ℕ),
      (trainLoop af chain fRef lRef bsz lamb decay permO m s a k0).2.length = m ∧
      ∀ j, j < m →
        (trainLoop af chain fRef lRef bsz lamb decay permO m s a k0).2.getD j 0
          = a * decay ^ j
  | 0, s, a, k0 => ⟨rfl, fun j hj => absurd hj (by omega)⟩
  | m + 1, s, a, k0 => by
      simp only [trainLoop]
      obtain ⟨ihl, ihj⟩ := trainLoop_trace af chain fRef lRef bsz lamb decay permO m
        (trainEpoch af chain fRef lRef bsz a lamb (permO k0) s) (a * decay) (k0 + 1)
      refine ⟨by simp [ihl], ?_⟩
      intro j hj
      cases j with
      | zero =>
          simp only [List.getD_cons_zero]
          rw [pow_zero, mul_one]
      | succ j =>
          simp only [List.getD_cons_succ]
          rw [ihj j (by omega)]
          ring

/-- Claim C4: during `train`, the learning rate is multiplied by `decay`
exactly once per completed epoch — one trace entry per epoch, and the alpha
passed to the `k`-th (0-indexed) `neural_train_iteration` call equals
`initial_alpha * decay ^ k`, for every `k < max_iter`. -/
theorem C4_alpha_decay_per_epoch (af : ℚ → ℚ) (s : Store) (net : NeuralNet)
    (fRef lRef max_iter bsz : ℕ) (alpha lamb decay : ℚ) (permO : ℕ → List ℕ)
    (h1 : (readA s fRef).shape.getD 0 0 = (readA s lRef).shape.getD 0 0)
    (h2 : (readA s fRef).shape.getD 1 0 = net.n_features)
    (h3 : (readA s lRef).shape.getD 1 0 = net.n_labels)
    (h4 : bsz ≠ 0) :
    (NeuralNet.train af s net fRef lRef max_iter bsz alpha lamb decay permO).2.2.1.length
      = max_iter ∧
    ∀ k, k < max_iter →
      (NeuralNet.train af s net fRef lRef max_iter bsz alpha lamb decay permO).2.2.1.getD k 0
        = alpha * decay ^ k := by
  unfold NeuralNet.train
  rw [if_neg (not_not_intro h1), if_neg (not_not_intro h2), if_neg (not_not_intro h3),
    if_neg h4]
  exact trainLoop_trace af _ fRef lRef bsz lamb decay permO max_iter _ alpha 0

/-- Witness for C4: a 2-epoch run on the concrete network; the per-epoch
alphas are `alpha` and `alpha * decay`. -/
theorem C4_alpha_decay_per_epoch_witness :
    (NeuralNet.train id wStoreT wNet 8 9 2 3 1 0 (1/2) (fun _ => [0, 1, 2])).2.2.1.length = 2 ∧
    (NeuralNet.train id wStoreT wNet 8 9 2 3 1 0 (1/2) (fun _ => [0, 1, 2])).2.2.1.getD 0 0
      = 1 * (1/2) ^ 0 ∧
    (NeuralNet.train id wStoreT wNet 8 9 2 3 1 0 (1/2) (fun _ => [0, 1, 2])).2.2.1.getD 1 0
      = 1 * (1/2) ^ 1 :=
  ⟨(C4_alpha_decay_per_epoch id wStoreT wNet 8 9 2 3 1 0 (1/2) (fun _ => [0, 1, 2])
      (by decide) (by decide) (by decide) (by decide)).1,
   (C4_alpha_decay_per_epoch id wStoreT wNet 8 9 2 3 1 0 (1/2) (fun _ => [0, 1, 2])
      (by decide) (by decide) (by decide) (by decide)).2 0 (by decide),
   (C4_alpha_decay_per_epoch id wStoreT wNet 8 9 2 3 1 0 (1/2) (fun _ => [0, 1, 2])
      (by decide) (by decide) (by decide) (by decide)).2 1 (by decide)⟩

/-- Claim C8: for every construction from at least two layer sizes,
`get_params` returns exactly `len(layer_sizes)` `(bias, theta)` pairs, the
`k`-th pair being the `k`-th chain layer's parameter arrays in head-to-tail
order, and the final pair — the sink tail layer with `out_nodes = 0` —
consists of zero-sized arrays. -/
theorem C8_get_params_structure (s : Store) (sizes : List ℕ)
    (rnd : ℕ → (ℕ → ℚ) × (ℕ → ℚ)) (h2 : 2 ≤ sizes.length) :
    ∃ s2 net, NeuralNet.init s sizes rnd = .ok (s2, net) ∧
      (NeuralNet.get_params net).length = sizes.length ∧
      (∀ k, k < sizes.length →
        (NeuralNet.get_params net).getD k (0, 0)
          = ((net.chain.getD k nlD).bias, (net.chain.getD k nlD).theta)) ∧
      (net.chain.getD (sizes.length - 1) nlD).out_nodes = 0 ∧
      (readA s2 (net.chain.getD (sizes.length - 1) nlD).bias).size = 0 ∧
      (readA s2 (net.chain.getD (sizes.length - 1) nlD).theta).size = 0 := by
  obtain ⟨s2, net, hinit, hl, hf, hlb, hbs, hcl, hwf, hx⟩ := init_spec s sizes rnd h2
  obtain ⟨w1, w2, w3, w4, _, _, _, _⟩ :=
    hwf.2.2.2.2 (sizes.length - 1) (by rw [hcl]; omega)
  rw [hl] at w2
  have hout : (net.chain.getD (sizes.length - 1) nlD).out_nodes = 0 := by
    rw [w2, if_neg (by omega)]
  refine ⟨s2, net, hinit, ?_, ?_, hout, ?_, ?_⟩
  · rw [get_params_length, hcl]
  · intro k hk
    exact get_params_getD net k (by omega)
  · rw [w3, hout]
  · rw [w4, hout, Nat.zero_mul]

/-- Witness for C8 at layer sizes `[1, 1]`. -/
theorem C8_get_params_structure_witness :
    2 ≤ ([1, 1] : List ℕ).length ∧
    ∃ s2 net, NeuralNet.init [] [1, 1] (fun _ => (fun _ => 0, fun _ => 0)) = .ok (s2, net) ∧
      (NeuralNet.get_params net).length = ([1, 1] : List ℕ).length ∧
      (∀ k, k < ([1, 1] : List ℕ).length →
        (NeuralNet.get_params net).getD k (0, 0)
          = ((net.chain.getD k nlD).bias, (net.chain.getD k nlD).theta)) ∧
      (net.chain.getD (([1, 1] : List ℕ).length - 1) nlD).out_nodes = 0 ∧
      (readA s2 (net.chain.getD (([1, 1] : List ℕ).length - 1) nlD).bias).size = 0 ∧
      (readA s2 (net.chain.getD (([1, 1] : List ℕ).length - 1) nlD).theta).size = 0 :=
  ⟨by decide, C8_get_params_structure [] [1, 1] (fun _ => (fun _ => 0, fun _ => 0)) (by decide)⟩

/-- `np.argmax` returns an index inside the row when the row is nonempty. -/
theorem argmaxRow_lt_length : ∀ (xs : List ℚ), xs ≠ [] → argmaxRow xs < xs.length
  | [], h => absurd rfl h
  | [_], _ => by simp [argmaxRow]
  | x :: y :: t, _ => by
      simp only [argmaxRow]
      by_cases hc : x < (y :: t).getD (argmaxRow (y :: t)) 0
      · rw [if_pos hc]
        have h1 := argmaxRow_lt_length (y :: t) (by simp)
        simp only [List.length_cons] at h1 ⊢
        omega
      · rw [if_neg hc]
        simp

/-- `np.argmax` returns the index of a maximum entry of the row. -/
theorem argmaxRow_is_max : ∀ (xs : List ℚ) (j : ℕ), j < xs.length →
    xs.getD j 0 ≤ xs.getD (argmaxRow xs) 0
  | [], j, hj => absurd hj (by simp)
  | [x], j, hj => by
      obtain rfl : j = 0 := by simpa using hj
      simp [argmaxRow]
  | x :: y :: t, j, hj => by
      simp only [argmaxRow]
      by_cases hc : x < (y :: t).getD (argmaxRow (y :: t)) 0
      · rw [if_pos hc]
        rw [List.getD_cons_succ]
        cases j with
        | zero => exact le_of_lt hc
        | succ j =>
            rw [List.getD_cons_succ]
            exact argmaxRow_is_max (y :: t) j (by simpa using hj)
      · rw [if_neg hc]
        rw [List.getD_cons_zero]
        cases j with
        | zero => rw [List.getD_cons_zero]
        | succ j =>
            rw [List.getD_cons_succ]
            exact le_trans (argmaxRow_is_max (y :: t) j (by simpa using hj)) (not_lt.mp hc)

/-- Claim C9: whenever `predict_prob` succeeds, `predict_label` succeeds on
the same state and returns exactly the per-row argmax of the probability
matrix: one index per row, each an in-range index attaining the row's
maximum value. -/
theorem C9_predict_label_argmax (af : ℚ → ℚ) (s : Store) (net : NeuralNet) (fRef : ℕ)
    (hshape : (readA s fRef).shape.getD 1 0 = net.n_features) :
    ∃ s2 p, NeuralNet.predict_prob af s net fRef = .ok (s2, p) ∧
      NeuralNet.predict_label af s net fRef
        = .ok (s2, (matRows (readA s2 p)).map argmaxRow) ∧
      ∀ row ∈ matRows (readA s2 p),
        (row ≠ [] → argmaxRow row < row.length) ∧
        ∀ j, j < row.length → row.getD j 0 ≤ row.getD (argmaxRow row) 0 := by
  cases hpp : NeuralNet.predict_prob af s net fRef with
  | error e =>
      exfalso
      unfold NeuralNet.predict_prob at hpp
      rw [if_pos hshape] at hpp
      exact Except.noConfusion hpp
  | ok pr =>
      obtain ⟨s2, p⟩ := pr
      refine ⟨s2, p, rfl, ?_, ?_⟩
      · unfold NeuralNet.predict_label
        rw [hpp]
      · intro row _
        exact ⟨fun hne => argmaxRow_lt_length row hne,
          fun j hj => argmaxRow_is_max row j hj⟩

/-- Witness for C9 on the concrete network and the `(3, 1)` feature matrix. -/
theorem C9_predict_label_argmax_witness :
    (readA wStoreT 8).shape.getD 1 0 = wNet.n_features ∧
    ∃ s2 p, NeuralNet.predict_prob id wStoreT wNet 8 = .ok (s2, p) ∧
      NeuralNet.predict_label id wStoreT wNet 8
        = .ok (s2, (matRows (readA s2 p)).map argmaxRow) ∧
      ∀ row ∈ matRows (readA s2 p),
        (row ≠ [] → argmaxRow row < row.length) ∧
        ∀ j, j < row.length → row.getD j 0 ≤ row.getD (argmaxRow row) 0 :=
  ⟨by decide, C9_predict_label_argmax id wStoreT wNet 8 (by decide)⟩

theorem batchUpdate_frame (af : ℚ → ℚ) (chain : List NetLayer) (fRef lRef bsz : ℕ)
    (alpha lamb : ℚ) (s : Store) (b r : ℕ) (h : AvoidsChain r chain) :
    readA (batchUpdate af chain fRef lRef bsz alpha lamb s b) r = readA s r := by
  unfold batchUpdate
  exact readA_writeRecords chain _ s r h

theorem batchUpdate_storeLen (af : ℚ → ℚ) (chain : List NetLayer) (fRef lRef bsz : ℕ)
    (alpha lamb : ℚ) (s : Store) (b : ℕ) :
    storeLen (batchUpdate af chain fRef lRef bsz alpha lamb s b) = storeLen s := by
  unfold batchUpdate
  exact storeLen_writeRecords chain _ s

theorem iteration_foldl_frame (af : ℚ → ℚ) (chain : List NetLayer) (fRef lRef bsz : ℕ)
    (alpha lamb : ℚ) (r : ℕ) (h : AvoidsChain r chain) :
    ∀ (l : List ℕ) (s : Store),
      readA (l.foldl (batchUpdate af chain fRef lRef bsz alpha lamb) s) r = readA s r ∧
      storeLen (l.foldl (batchUpdate af chain fRef lRef bsz alpha lamb) s) = storeLen s
  | [], s => ⟨rfl, rfl⟩
  | b :: l, s => by
      simp only [List.foldl_cons]
      obtain ⟨ih1, ih2⟩ := iteration_foldl_frame af chain fRef lRef bsz alpha lamb r h l
        (batchUpdate af chain fRef lRef bsz alpha lamb s b)
      rw [ih1, ih2, batchUpdate_frame af chain fRef lRef bsz alpha lamb s b r h,
        batchUpdate_storeLen]
      exact ⟨rfl, rfl⟩

theorem trainEpoch_frame (af : ℚ → ℚ) (chain : List NetLayer) (fRef lRef bsz : ℕ)
    (alpha lamb : ℚ) (perm : List ℕ) (s : Store) (r : ℕ)
    (hr : r < storeLen s) (h : AvoidsChain r chain) :
    readA (trainEpoch af chain fRef lRef bsz alpha lamb perm s) r = readA s r ∧
    storeLen s ≤ storeLen (trainEpoch af chain fRef lRef bsz alpha lamb perm s) := by
  unfold trainEpoch neural_train_iteration
  obtain ⟨h1, h2⟩ := iteration_foldl_frame af chain _ _ bsz alpha lamb r h
    (List.range ((readA s fRef).shape.getD 0 0 / bsz))
    (allocA (allocA s _).1 _).1
  rw [h1, h2]
  simp only [allocA]
  constructor
  · rw [readA_append_lt _ _ _ (lt_of_lt_of_le hr (storeLen_le_of_extends ⟨_, rfl⟩)),
      readA_append_lt _ _ _ hr]
  · simp [storeLen]

theorem trainLoop_frame (af : ℚ → ℚ) (chain : List NetLayer) (fRef lRef bsz : ℕ)
    (lamb decay : ℚ) (permO : ℕ → List ℕ) (r : ℕ) (h : AvoidsChain r chain) :
    ∀ (m : ℕ) (s : Store) (a : ℚ) (k0 : ℕ), r < storeLen s →
      readA (trainLoop af chain fRef lRef bsz lamb decay permO m s a k0).1 r = readA s r ∧
      storeLen s ≤ storeLen (trainLoop af chain fRef lRef bsz lamb decay permO m s a k0).1
  | 0, s, a, k0, _ => ⟨rfl, le_refl _⟩
  | m + 1, s, a, k0, hr => by
      simp only [trainLoop]
      obtain ⟨e1, e2⟩ := trainEpoch_frame af chain fRef lRef bsz a lamb (permO k0) s r hr h
      obtain ⟨l1, l2⟩ := trainLoop_frame af chain fRef lRef bsz lamb decay permO r h m
        (trainEpoch af chain fRef lRef bsz a lamb (permO k0) s) (a * decay) (k0 + 1)
        (by omega)
      rw [l1, e1]
      exact ⟨rfl, by omega⟩

theorem avoids_set_batch (r : ℕ) (s : Store) (net : NeuralNet) (b : ℕ)
    (hr : r < storeLen s) (h : AvoidsChain r net.chain) :
    AvoidsChain r (NeuralNet.set_batch s net b).2.chain := by
  intro ly hly
  obtain ⟨k, hk, rfl⟩ := List.getElem_of_mem hly
  obtain ⟨sbl, sbk⟩ := setBatchGo_spec net.chain s b
  have hk2 : k < net.chain.length := by
    simpa [NeuralNet.set_batch, sbl] using hk
  obtain ⟨c1, c2, _, _, c5, c6, _, _⟩ := sbk k hk2
  have hmem : net.chain.getD k nlD ∈ net.chain := by
    rw [List.getD_eq_getElem net.chain nlD hk2]
    exact List.getElem_mem hk2
  obtain ⟨m1, m2, _, _⟩ := h (net.chain.getD k nlD) hmem
  rw [← List.getD_eq_getElem ((NeuralNet.set_batch s net b).2.chain) nlD hk]
  show r ≠ ((setBatchGo s net.chain b).2.getD k nlD).bias ∧
    r ≠ ((setBatchGo s net.chain b).2.getD k nlD).theta ∧
    r ≠ ((setBatchGo s net.chain b).2.getD k nlD).act ∧
    r ≠ ((setBatchGo s net.chain b).2.getD k nlD).delta
  rw [c1, c2]
  exact ⟨m1, m2, by omega, by omega⟩

/-- Claim C10: neither `train` nor `predict_prob` modifies the
caller-supplied feature or label arrays: when those arrays are live and are
not any layer's internal buffer, their values after the call equal their
values before it (both wrappers copy the inputs and hand only the copies to
the C engines). -/
theorem C10_inputs_not_mutated (af : ℚ → ℚ) (s : Store) (net : NeuralNet)
    (fRef lRef max_iter bsz : ℕ) (alpha lamb decay : ℚ) (permO : ℕ → List ℕ)
    (hf : fRef < storeLen s) (hl : lRef < storeLen s)
    (haf : AvoidsChain fRef net.chain) (hal : AvoidsChain lRef net.chain) :
    readA (NeuralNet.train af s net fRef lRef max_iter bsz alpha lamb decay permO).1 fRef
      = readA s fRef ∧
    readA (NeuralNet.train af s net fRef lRef max_iter bsz alpha lamb decay permO).1 lRef
      = readA s lRef ∧
    ∀ s2 p, NeuralNet.predict_prob af s net fRef = .ok (s2, p) →
      readA s2 fRef = readA s fRef := by
  have htr : ∀ r, r < storeLen s → AvoidsChain r net.chain →
      readA (NeuralNet.train af s net fRef lRef max_iter bsz alpha lamb decay permO).1 r
        = readA s r := by
    intro r hr hav
    unfold NeuralNet.train
    by_cases h1 : (readA s fRef).shape.getD 0 0 = (readA s lRef).shape.getD 0 0
    case neg => rw [if_pos h1]
    by_cases h2 : (readA s fRef).shape.getD 1 0 = net.n_features
    case neg => rw [if_neg (not_not_intro h1), if_pos h2]
    by_cases h3 : (readA s lRef).shape.getD 1 0 = net.n_labels
    case neg => rw [if_neg (not_not_intro h1), if_neg (not_not_intro h2), if_pos h3]
    by_cases h4 : bsz = 0
    case pos =>
      rw [if_neg (not_not_intro h1), if_neg (not_not_intro h2), if_neg (not_not_intro h3),
        if_pos h4]
    rw [if_neg (not_not_intro h1), if_neg (not_not_intro h2), if_neg (not_not_intro h3),
      if_neg h4]
    dsimp only
    split
    · have hx : Extends s (NeuralNet.set_batch s net bsz).1 :=
        setBatchGo_extends net.chain s bsz
      have hr2 : r < storeLen (NeuralNet.set_batch s net bsz).1 :=
        lt_of_lt_of_le hr (storeLen_le_of_extends hx)
      have hav2 := avoids_set_batch r s net bsz hr hav
      obtain ⟨t1, _⟩ := trainLoop_frame af (NeuralNet.set_batch s net bsz).2.chain fRef lRef
        bsz lamb decay permO r hav2 max_iter (NeuralNet.set_batch s net bsz).1 alpha 0 hr2
      rw [t1, readA_of_extends hx r hr]
    · obtain ⟨t1, _⟩ := trainLoop_frame af net.chain fRef lRef bsz lamb decay permO r hav
        max_iter s alpha 0 hr
      exact t1
  refine ⟨htr fRef hf haf, htr lRef hl hal, ?_⟩
  intro s2 p hpp
  unfold NeuralNet.predict_prob at hpp
  by_cases hc : (readA s fRef).shape.getD 1 0 = net.n_features
  · rw [if_pos hc] at hpp
    injection hpp with h3
    obtain ⟨h4, h5⟩ := Prod.mk.injEq _ _ _ _ |>.mp h3
    subst h4
    unfold neural_predict_prob
    simp only [allocA]
    have hne : fRef ≠ (s ++ [(⟨(readA s fRef).shape, (readA s fRef).data⟩ : NDArray)]).length := by
      have hf2 := hf
      simp only [storeLen] at hf2
      simp only [List.length_append, List.length_cons, List.length_nil]
      omega
    rw [readA_writeA_ne _ _ _ _ hne,
      readA_writeActs net.chain _ _ fRef (fun ly hly => (haf ly hly).2.2.1),
      readA_append_lt _ _ _ (lt_of_lt_of_le hf (storeLen_le_of_extends ⟨_, rfl⟩)),
      readA_append_lt _ _ _ hf]
  · rw [if_neg hc] at hpp
    exact Except.noConfusion hpp

/-- Witness for C10 on the concrete network, with the caller's feature and
label arrays at references 8 and 9. -/
theorem C10_inputs_not_mutated_witness :
    8 < storeLen wStoreT ∧ 9 < storeLen wStoreT ∧
    AvoidsChain 8 wNet.chain ∧ AvoidsChain 9 wNet.chain ∧
    readA (NeuralNet.train id wStoreT wNet 8 9 1 3 1 0 1 (fun _ => [0, 1, 2])).1 8
      = readA wStoreT 8 ∧
    readA (NeuralNet.train id wStoreT wNet 8 9 1 3 1 0 1 (fun _ => [0, 1, 2])).1 9
      = readA wStoreT 9 ∧
    ∀ s2 p, NeuralNet.predict_prob id wStoreT wNet 8 = .ok (s2, p) →
      readA s2 8 = readA wStoreT 8 :=
  ⟨by decide, by decide, by decide, by decide,
   (C10_inputs_not_mutated id wStoreT wNet 8 9 1 3 1 0 1 (fun _ => [0, 1, 2])
     (by decide) (by decide) (by decide) (by decide)).1,
   (C10_inputs_not_mutated id wStoreT wNet 8 9 1 3 1 0 1 (fun _ => [0, 1, 2])
     (by decide) (by decide) (by decide) (by decide)).2.1,
   (C10_inputs_not_mutated id wStoreT wNet 8 9 1 3 1 0 1 (fun _ => [0, 1, 2])
     (by decide) (by decide) (by decide) (by decide)).2.2⟩
